import Mathlib

/-!
# v4l2_capture.cc : buffer lifecycle of the DMA-BUF capture program

A shallow embedding of `main` of `src/v4l2_capture.cc`.  Every call that leaves
the program (ioctl, poll, GBM, stdio) gets its answer from a `World`, a record of
the answers the kernel and the GBM library give; the program is a function from a
`World` to the calls it issues (a list of `Event`s, split by the numbered steps of
the source) and its exit status.
-/

namespace V4l2Capture

/-! ## Data model -/

def EXIT_SUCCESS : Int := 0

def EXIT_FAILURE : Int := 1

/-- The `struct buffer` of the source.  A `gbm_bo*` is `none` for `nullptr` and
`some i` for the object returned by the call `gbm_bo_create` of loop index `i`. -/
structure buffer where
  bo_handle : Option Nat
  dbuf_fd : Int
  length : Nat
  deriving DecidableEq

/-- The `struct stream` of the source. -/
structure stream where
  v4l2_fd : Int
  current_buffer : Int
  buffer_count : Int
  buffers : List buffer
  deriving DecidableEq

/-- The answers of the environment.  Calls of the allocation loop are indexed by the
loop variable `i`; calls of the capture loop by the value of `frame_counter` inside
the body (1 for the first iteration). -/
structure World where
  /-- `argc` -/
  argc : Nat
  /-- `open(v4l2_device, O_RDWR)` -/
  open_v4l2 : Int
  /-- `VIDIOC_QUERYCAP`: `none` when the ioctl fails, else whether
  `cap.capabilities & V4L2_CAP_VIDEO_CAPTURE` is non-zero -/
  querycap : Option Bool
  /-- `VIDIOC_S_FMT` succeeded -/
  s_fmt : Bool
  /-- `VIDIOC_G_FMT`: `none` when it fails, else width, height, bytesperline -/
  g_fmt : Option (Nat × Nat × Nat)
  /-- `open(drm_device, O_RDWR)` -/
  open_drm : Int
  /-- `gbm_create_device` returned a non-null device -/
  gbm_create_device : Bool
  /-- `VIDIOC_REQBUFS`: `none` when it fails, else `req.count` as the driver left it -/
  reqbufs : Option Nat
  /-- `VIDIOC_QUERYBUF` of index `i` succeeded -/
  querybuf : Nat → Bool
  /-- `gbm_bo_create` of loop index `i` returned a non-null object -/
  gbm_bo_create : Nat → Bool
  /-- `gbm_bo_get_fd` of the object of loop index `i` -/
  gbm_bo_get_fd : Nat → Int
  /-- the initial `VIDIOC_QBUF` of index `i` succeeded -/
  qbuf : Nat → Bool
  /-- `VIDIOC_STREAMON` succeeded -/
  streamon : Bool
  /-- return value of `poll` in iteration `k` -/
  poll : Nat → Int
  /-- `VIDIOC_DQBUF` in iteration `k`: `none` when it fails, else `buf.index` -/
  dqbuf : Nat → Option Nat
  /-- `gbm_bo_map` in iteration `k` returned a non-null pointer -/
  gbm_bo_map : Nat → Bool
  /-- `fopen` in iteration `k` returned a non-null stream -/
  fopen : Nat → Bool
  /-- the resubmitting `VIDIOC_QBUF` in iteration `k` succeeded -/
  requeue : Nat → Bool
  /-- `VIDIOC_STREAMOFF` succeeded -/
  streamoff : Bool

/-- The calls the program issues, with their arguments and their answer. -/
inductive Event
  | gbm_create_device
  | reqbufs (count : Nat)
  | querybuf (index : Nat) (ok : Bool)
  | gbm_bo_create (i : Nat) (ok : Bool)
  /-- `VIDIOC_QBUF` with `buf.index = index` and `buf.m.fd = fd` -/
  | qbuf (index : Nat) (fd : Int) (ok : Bool)
  | streamon (ok : Bool)
  | poll (ret : Int)
  | dqbuf (index : Option Nat)
  /-- `gbm_bo_map(buffers[index].bo_handle, ...)` -/
  | gbm_bo_map (index : Nat) (ok : Bool)
  /-- `fwrite` of the mapped pixels of `buffers[index]` -/
  | fwrite (index : Nat)
  /-- `gbm_bo_unmap` of the mapping of `buffers[index]` -/
  | gbm_bo_unmap (index : Nat)
  /-- the message "Capture loop is terminated unexpectedly" -/
  | diag
  | streamoff (ok : Bool)
  | gbm_bo_destroy (bo : Nat)
  | gbm_device_destroy
  | close_gbm_fd
  deriving DecidableEq

/-- How `main` ends: a `return`, a subscript outside its vector (undefined
behaviour), or the capture loop of the model still running when its fuel is spent. -/
inductive Outcome
  | exit (code : Int)
  | undefined
  | fuel
  deriving DecidableEq

/-! ## The program -/

/-- Conversion of the `__u32` `buf.index` to the `int` `stream.current_buffer`. -/
def toInt32 (u : Nat) : Int :=
  if u % 2 ^ 32 < 2 ^ 31 then ((u % 2 ^ 32 : Nat) : Int) else ((u % 2 ^ 32 : Nat) : Int) - 2 ^ 32

/-- The subscript `v[i]` with an `int` index: a negative `i` becomes a huge `size_t`. -/
def vectorAt (v : List buffer) (i : Int) : Option buffer :=
  if i < 0 then none else v[i.toNat]?

/-- Step 5, `for (unsigned int i = 0; i < req.count; ++i)`: the first argument is
the number of iterations left, `req.count - i`. -/
def allocLoop (w : World) (bytesperline : Nat) :
    Nat → Nat → List buffer → List Event × Option (List buffer)
  | 0, _, buffers => ([], some buffers)
  | n + 1, i, buffers =>
    if w.querybuf i = false then ([.querybuf i false], none)
    else if w.gbm_bo_create i = false then
      ([.querybuf i true, .gbm_bo_create i false], none)
    else if w.qbuf i = false then
      ([.querybuf i true, .gbm_bo_create i true, .qbuf i (w.gbm_bo_get_fd i) false], none)
    else
      let b : buffer :=
        { bo_handle := some i, dbuf_fd := w.gbm_bo_get_fd i, length := bytesperline }
      let r := allocLoop w bytesperline n (i + 1) (buffers ++ [b])
      ([.querybuf i true, .gbm_bo_create i true, .qbuf i (w.gbm_bo_get_fd i) true] ++ r.1, r.2)

/-- How one pass through the body of the capture loop ends. -/
inductive BodyExit
  | next (st : stream)
  | returned (code : Int)
  | undefined
  deriving DecidableEq

/-- "Dump a frame": map the buffer, open the file, write the pixels. -/
def dumpFrame (w : World) (frame_counter index : Nat) : List Event :=
  if w.gbm_bo_map frame_counter then
    .gbm_bo_map index true :: (if w.fopen frame_counter then [.fwrite index] else [])
  else [.gbm_bo_map index false]

/-- The body of the capture loop (lines 176 to 237), `frame_counter` already
incremented by the loop condition. -/
def loopBody (w : World) (buffers : List buffer) (frame_counter : Nat) (st : stream) :
    List Event × BodyExit :=
  match w.dqbuf frame_counter with
  | none => ([.dqbuf none], .returned EXIT_FAILURE)
  | some index =>
    match buffers[index]? with
    | none => ([.dqbuf (some index)], .undefined)
    | some _ =>
      if st.current_buffer ≠ -1 then
        match vectorAt st.buffers st.current_buffer with
        | none => (.dqbuf (some index) :: dumpFrame w frame_counter index, .undefined)
        | some b =>
          if w.requeue frame_counter then
            (.dqbuf (some index) :: dumpFrame w frame_counter index
                ++ [.qbuf st.current_buffer.toNat b.dbuf_fd true],
              .next { st with current_buffer := toInt32 index })
          else
            (.dqbuf (some index) :: dumpFrame w frame_counter index
                ++ [.qbuf st.current_buffer.toNat b.dbuf_fd false],
              .returned EXIT_FAILURE)
      else
        (.dqbuf (some index) :: dumpFrame w frame_counter index,
          .next { st with current_buffer := toInt32 index })

/-- How the capture loop ends. -/
inductive LoopExit
  /-- the loop condition was false; `frame_counter` and `stream` at that point -/
  | condition (frame_counter : Nat) (st : stream)
  | returned (code : Int)
  | undefined
  | fuel
  deriving DecidableEq

/-- Step 7, `while (frame_counter++ < 5 && poll(fds, 2, 5000) > 0)`.  The first
argument is fuel; the second is `frame_counter` before the condition is evaluated
(a `uint32_t` that never exceeds 6, so its increment does not wrap).  `poll` is not
called when `frame_counter++ < 5` is false. -/
def captureLoop (w : World) (buffers : List buffer) :
    Nat → Nat → stream → List Event × LoopExit
  | 0, _, _ => ([], .fuel)
  | fuel + 1, frame_counter, st =>
    if frame_counter < 5 then
      if w.poll (frame_counter + 1) > 0 then
        match loopBody w buffers (frame_counter + 1) st with
        | (ev, .next st') =>
          let rest := captureLoop w buffers fuel (frame_counter + 1) st'
          (.poll (w.poll (frame_counter + 1)) :: ev ++ rest.1, rest.2)
        | (ev, .returned code) => (.poll (w.poll (frame_counter + 1)) :: ev, .returned code)
        | (ev, .undefined) => (.poll (w.poll (frame_counter + 1)) :: ev, .undefined)
      else ([.poll (w.poll (frame_counter + 1))], .condition (frame_counter + 1) st)
    else ([], .condition (frame_counter + 1) st)

/-- The calls of one run, by the steps of the source, and how it ended. -/
structure Run where
  /-- steps 3 to 6: `gbm_create_device` up to `VIDIOC_STREAMON` -/
  setup : List Event
  /-- step 7: the capture loop -/
  capture : List Event
  /-- the check after the loop and steps 8 and 9 -/
  teardown : List Event
  /-- how the capture loop ended, `none` when it was not reached -/
  loopExit : Option LoopExit
  status : Outcome

def Run.trace (r : Run) : List Event := r.setup ++ r.capture ++ r.teardown

/-- Step 9: the device is destroyed, then every buffer object, then the device
again, then the DRM descriptor is closed. -/
def cleanup (gbm : Bool) (buffers : List buffer) : List Event :=
  (if gbm then [Event.gbm_device_destroy] else [])
    ++ buffers.filterMap (fun b => b.bo_handle.map Event.gbm_bo_destroy)
    ++ [.gbm_device_destroy, .close_gbm_fd]

/-- The check after the loop and step 8. -/
def stopStreaming (w : World) (frame_counter : Nat) : List Event :=
  (if frame_counter < 5 then [Event.diag] else []) ++ [.streamoff w.streamoff]

/-- The calls after the loop: none after a `return` inside the loop; else the check,
step 8 and, when `VIDIOC_STREAMOFF` succeeded, step 9. -/
def teardownOf (w : World) (buffers : List buffer) : LoopExit → List Event
  | .condition frame_counter _ =>
    if w.streamoff = false then stopStreaming w frame_counter
    else stopStreaming w frame_counter ++ cleanup true buffers
  | _ => []

/-- The exit status after the loop. -/
def statusOf (w : World) : LoopExit → Outcome
  | .condition _ _ => if w.streamoff = false then .exit EXIT_FAILURE else .exit EXIT_SUCCESS
  | .returned code => .exit code
  | .undefined => .undefined
  | .fuel => .fuel

/-- The initialiser of `struct stream stream` before the loop. -/
def streamInit (w : World) (buffers : List buffer) : stream :=
  { v4l2_fd := w.open_v4l2, current_buffer := -1, buffer_count := 0, buffers := buffers }

/-- Steps 6 to 9, entered with the vector `buffers` filled by step 5. -/
def streaming (w : World) (pre : List Event) (buffers : List buffer) : Run :=
  if w.streamon = false then ⟨pre ++ [.streamon false], [], [], none, .exit EXIT_FAILURE⟩
  else
    let r := captureLoop w buffers 6 0 (streamInit w buffers)
    ⟨pre ++ [.streamon true], r.1, teardownOf w buffers r.2, some r.2, statusOf w r.2⟩

/-- Steps 5 to 9, with `req.count = count`. -/
def allocAndStream (w : World) (bytesperline count : Nat) : Run :=
  match allocLoop w bytesperline count 0 [] with
  | (ev, none) => ⟨[.gbm_create_device, .reqbufs count] ++ ev, [], [], none, .exit EXIT_FAILURE⟩
  | (ev, some buffers) => streaming w ([.gbm_create_device, .reqbufs count] ++ ev) buffers

/-- Steps 3 (after `open`) to 9. -/
def fromGbm (w : World) (bytesperline : Nat) : Run :=
  if w.gbm_create_device = false then ⟨[], [], [], none, .exit EXIT_FAILURE⟩
  else
    match w.reqbufs with
    | none => ⟨[.gbm_create_device], [], [], none, .exit EXIT_FAILURE⟩
    | some count => allocAndStream w bytesperline count

/-- The function `main`. -/
def main (w : World) : Run :=
  if w.argc ≠ 3 then ⟨[], [], [], none, .exit 1⟩
  else if w.open_v4l2 < 0 then ⟨[], [], [], none, .exit EXIT_FAILURE⟩
  else
    match w.querycap with
    | none => ⟨[], [], [], none, .exit EXIT_FAILURE⟩
    | some false => ⟨[], [], [], none, .exit EXIT_FAILURE⟩
    | some true =>
      if w.s_fmt = false then ⟨[], [], [], none, .exit EXIT_FAILURE⟩
      else
        match w.g_fmt with
        | none => ⟨[], [], [], none, .exit EXIT_FAILURE⟩
        | some (_, _, bytesperline) =>
          if w.open_drm < 0 then ⟨[], [], [], none, .exit EXIT_FAILURE⟩
          else fromGbm w bytesperline

/-- A world in which every call succeeds: the driver grants the 4 buffers asked
for, the format is 1920x1020 and buffers come back in the order 0, 1, 2, 3, 0. -/
def goodWorld : World where
  argc := 3
  open_v4l2 := 3
  querycap := some true
  s_fmt := true
  g_fmt := some (1920, 1020, 7680)
  open_drm := 4
  gbm_create_device := true
  reqbufs := some 4
  querybuf := fun _ => true
  gbm_bo_create := fun _ => true
  gbm_bo_get_fd := fun i => 10 + i
  qbuf := fun _ => true
  streamon := true
  poll := fun _ => 1
  dqbuf := fun k => some ((k - 1) % 4)
  gbm_bo_map := fun _ => true
  fopen := fun _ => true
  requeue := fun _ => true
  streamoff := true

/-- As `goodWorld`, but the resubmitting `VIDIOC_QBUF` of iteration 5 is rejected. -/
def requeueFailsWorld : World := { goodWorld with requeue := fun k => decide (k ≠ 5) }

/-- As `goodWorld`, but `VIDIOC_DQBUF` fails in iteration 3. -/
def dqbufFailsWorld : World :=
  { goodWorld with dqbuf := fun k => if k = 3 then none else some ((k - 1) % 4) }

/-- As `goodWorld`, but `poll` times out (returns 0) in iteration 3. -/
def timeoutWorld : World := { goodWorld with poll := fun k => if k = 3 then 0 else 1 }

/-- As `goodWorld`, but `poll` times out (returns 0) in iteration 5. -/
def fifthWaitWorld : World := { goodWorld with poll := fun k => if k = 5 then 0 else 1 }

/-! ## The capture queue and the other observers of a run -/

/-- The state of a slot of the kernel capture queue, which the program does not
store: `FREE` (not submitted), `QUEUED` (submitted, owned by the device) or `HELD`
(dequeued, owned by the application). -/
inductive Slot
  | FREE
  | QUEUED
  | HELD
  deriving DecidableEq

abbrev Queue := Nat → Slot

def Queue.set (q : Queue) (i : Nat) (s : Slot) : Queue := fun j => if j = i then s else q j

/-- The effect of a call on the slots: an accepted `VIDIOC_QBUF` queues the slot, a
successful `VIDIOC_DQBUF` hands it to the application, an accepted
`VIDIOC_STREAMOFF` frees every slot. -/
def Queue.step (q : Queue) : Event → Queue
  | .qbuf i _ true => q.set i .QUEUED
  | .dqbuf (some i) => q.set i .HELD
  | .streamoff true => fun _ => .FREE
  | _ => q

/-- The queue before any call: every slot is free. -/
def Queue.fresh : Queue := fun _ => .FREE

/-- The state reached from `s` by the calls of `tr`. -/
def replay {σ : Type} (step : σ → Event → σ) (s : σ) (tr : List Event) : σ := tr.foldl step s

/-- The check `P` holds at every call of `tr`, in the state the call is issued in. -/
def along {σ : Type} (step : σ → Event → σ) (P : σ → Event → Bool) : σ → List Event → Bool
  | _, [] => true
  | s, e :: es => P s e && along step P (step s e) es

/-- Every state the run goes through: before the first call and after each call. -/
def statesAlong {σ : Type} (step : σ → Event → σ) : σ → List Event → List σ
  | s, [] => [s]
  | s, e :: es => s :: statesAlong step (step s e) es

/-- The states in which a call satisfying `p` is issued. -/
def statesBefore {σ : Type} (step : σ → Event → σ) (p : Event → Bool) : σ → List Event → List σ
  | _, [] => []
  | s, e :: es => (if p e then [s] else []) ++ statesBefore step p (step s e) es

/-- The assumption on the device: a `VIDIOC_DQBUF` returns only a slot that is
`QUEUED`. -/
def dequeuesQueued (q : Queue) : Event → Bool
  | .dqbuf (some i) => q i == .QUEUED
  | _ => true

/-- A `VIDIOC_QBUF` is issued for a slot that is not `QUEUED`. -/
def submitsFresh (q : Queue) : Event → Bool
  | .qbuf i _ _ => q i != .QUEUED
  | _ => true

/-- The number of the slots `0 .. N-1` held by the application. -/
def held (N : Nat) (q : Queue) : Nat := (List.range N).countP (fun i => q i == .HELD)

/-- The number of the slots `0 .. N-1` that are `QUEUED` or `FREE`. -/
def available (N : Nat) (q : Queue) : Nat :=
  (List.range N).countP (fun i => q i == .QUEUED || q i == .FREE)

def isPoll : Event → Bool
  | .poll _ => true
  | _ => false

/-- The indices handed out by successful `VIDIOC_DQBUF` calls, in order. -/
def dequeued (tr : List Event) : List Nat :=
  tr.filterMap (fun e => match e with | .dqbuf (some i) => some i | _ => none)

/-- The indices of the accepted `VIDIOC_QBUF` calls, in order. -/
def submitted (tr : List Event) : List Nat :=
  tr.filterMap (fun e => match e with | .qbuf i _ true => some i | _ => none)

/-- The live buffer objects: `gbm_bo_create` adds one, `gbm_bo_destroy` removes it. -/
def liveStep (l : List Nat) : Event → List Nat
  | .gbm_bo_create i true => l ++ [i]
  | .gbm_bo_destroy i => l.erase i
  | _ => l

/-- The buffer objects created and not destroyed by the calls of `tr`. -/
def liveObjects (tr : List Event) : List Nat := replay liveStep [] tr

def isUnmap : Event → Bool
  | .gbm_bo_unmap _ => true
  | _ => false

/-- The calls of iteration `k` of the capture loop when all of them succeed: the
wait, the dequeue of `idx`, the dump, and the resubmission of `prev`, the index
dequeued in the iteration before (none in the first). -/
def iteration (w : World) (k idx : Nat) (prev : Option Nat) : List Event :=
  .poll (w.poll k) :: .dqbuf (some idx) :: dumpFrame w k idx
    ++ (match prev with
        | none => []
        | some c => [.qbuf c (w.gbm_bo_get_fd c) true])

/-- The outstanding CPU mappings: `gbm_bo_map` adds one, `gbm_bo_unmap` removes it. -/
def mapStep (m : Nat → Bool) : Event → Nat → Bool
  | .gbm_bo_map i true => fun j => if j = i then true else m j
  | .gbm_bo_unmap i => fun j => if j = i then false else m j
  | _ => m

/-- A `VIDIOC_QBUF` is issued for a buffer without an outstanding mapping. -/
def submitsUnmapped (m : Nat → Bool) : Event → Bool
  | .qbuf i _ _ => !m i
  | _ => true

/-- The call before, as a state: used to say what a call directly follows. -/
def lastStep (_ : Option Event) (e : Event) : Option Event := some e

/-- A `fwrite` of a buffer directly follows a successful `gbm_bo_map` of it. -/
def readsMapped (prev : Option Event) : Event → Bool
  | .fwrite i => prev == some (.gbm_bo_map i true)
  | _ => true

/-- The value of `frame_counter` after the loop, when the loop ended through its
condition. -/
def Run.frame_counter (r : Run) : Option Nat :=
  match r.loopExit with
  | some (.condition fc _) => some fc
  | _ => none

/-- The value of `stream.current_buffer` after the loop, when the loop ended through
its condition. -/
def Run.current_buffer (r : Run) : Option Int :=
  match r.loopExit with
  | some (.condition _ st) => some st.current_buffer
  | _ => none

/-- The guards of steps 1 to 3 pass and `VIDIOC_REQBUFS` leaves `req.count = N`. -/
def World.reachesAlloc (w : World) (N : Nat) : Prop :=
  w.argc = 3 ∧ 0 ≤ w.open_v4l2 ∧ w.querycap = some true ∧ w.s_fmt = true ∧ w.g_fmt.isSome = true
    ∧ 0 ≤ w.open_drm ∧ w.gbm_create_device = true ∧ w.reqbufs = some N

/-- The vector `buffers` after `n` successful iterations of step 5. -/
def pool (w : World) (bytesperline n : Nat) : List buffer :=
  (List.range n).map
    (fun i => { bo_handle := some i, dbuf_fd := w.gbm_bo_get_fd i, length := bytesperline })

/-! ## Auxiliary definitions for the proofs -/

/-- The calls of `n` successful iterations of step 5, from index `i` on. -/
def allocOk (w : World) : Nat → Nat → List Event
  | 0, _ => []
  | n + 1, i =>
    [.querybuf i true, .gbm_bo_create i true, .qbuf i (w.gbm_bo_get_fd i) true]
      ++ allocOk w n (i + 1)

/-- The entries pushed by `n` successful iterations of step 5, from index `i` on. -/
def poolFrom (w : World) (bytesperline : Nat) : Nat → Nat → List buffer
  | 0, _ => []
  | n + 1, i =>
    { bo_handle := some i, dbuf_fd := w.gbm_bo_get_fd i, length := bytesperline }
      :: poolFrom w bytesperline n (i + 1)

/-- The queue when every slot below `N` is with the device, except the one whose
index is `cur` (none when `cur = -1`). -/
def qOf (N : Nat) (cur : Int) : Queue :=
  fun i => if i < N then (if (i : Int) = cur then .HELD else .QUEUED) else .FREE

/-- The queue while step 5 runs: the slots below `i` are queued. -/
def qAlloc (i : Nat) : Queue := fun j => if j < i then .QUEUED else .FREE

/-- The values `stream.current_buffer` takes: -1 or a slot index. -/
def CurOk (N : Nat) (cur : Int) : Prop := cur = -1 ∨ (0 ≤ cur ∧ cur < N)

/-- What is checked at each call of the capture loop: at most two slots are held,
at most one when the readiness wait is entered, and a submitted slot is not queued. -/
def loopCheck (N : Nat) (q : Queue) (e : Event) : Bool :=
  decide (held N q ≤ 2) && (!isPoll e || decide (held N q ≤ 1)) && submitsFresh q e

/-- The calls of steps 3 to 6 other than an accepted `VIDIOC_STREAMON`. -/
def isSetupCall : Event → Bool
  | .gbm_create_device => true
  | .reqbufs _ => true
  | .querybuf _ _ => true
  | .gbm_bo_create _ _ => true
  | .qbuf _ _ _ => true
  | .streamon false => true
  | _ => false

/-- The calls of the check after the loop and of steps 8 and 9. -/
def isTeardownCall : Event → Bool
  | .diag => true
  | .streamoff _ => true
  | .gbm_device_destroy => true
  | .gbm_bo_destroy _ => true
  | .close_gbm_fd => true
  | _ => false

/-- The calls of the capture loop. -/
def isCaptureCall : Event → Bool
  | .poll _ => true
  | .dqbuf _ => true
  | .gbm_bo_map _ _ => true
  | .fwrite _ => true
  | .qbuf _ _ _ => true
  | _ => false

def isDequeue : Event → Bool
  | .dqbuf (some _) => true
  | _ => false

/-- The slots together with the number of successful dequeues so far. -/
def heldStep (s : Queue × Nat) (e : Event) : Queue × Nat :=
  (s.1.step e, if isDequeue e then s.2 + 1 else s.2)

/-- The number of held slots a call of the capture loop is issued with, `d` being the
number of successful dequeues before it: the wait and the dequeue see `min d 1`; the
calls after the dequeue of an iteration (map, write) see `min d 2`; the resubmitting
`VIDIOC_QBUF` sees 2. -/
def expectedHeld (d : Nat) : Event → Option Nat
  | .poll _ => some (min d 1)
  | .dqbuf _ => some (min d 1)
  | .gbm_bo_map _ _ => some (min d 2)
  | .fwrite _ => some (min d 2)
  | .qbuf _ _ _ => some 2
  | _ => none

/-- The call is issued with exactly the expected number of slots held and all the
other slots `QUEUED` or `FREE`. -/
def exactCheck (N : Nat) (s : Queue × Nat) (e : Event) : Bool :=
  match expectedHeld s.2 e with
  | some h => held N s.1 == h && available N s.1 == N - h
  | none => true

/-- The pairs of `stream.current_buffer` and the number of dequeues so far that
occur: -1 before the first dequeue, a slot index after it. -/
def CurAfter (N : Nat) (cur : Int) (d : Nat) : Prop :=
  (cur = -1 ∧ d = 0) ∨ (0 ≤ cur ∧ cur < N ∧ 1 ≤ d)

def isFwrite : Event → Bool
  | .fwrite _ => true
  | _ => false

/-- The iteration a call belongs to (the number of readiness waits so far, the value
of `frame_counter` in the body) and the call before it. -/
def readStep (s : Nat × Option Event) (e : Event) : Nat × Option Event :=
  (if isPoll e then s.1 + 1 else s.1, some e)

/-- Directly after a successful `gbm_bo_map` of a buffer the next call is the `fwrite`
of that buffer when `fopen` succeeds in that iteration, and is not an `fwrite` when
it fails; no other call is an `fwrite`. -/
def readCheck (w : World) (s : Nat × Option Event) (e : Event) : Bool :=
  match s.2 with
  | some (.gbm_bo_map i true) => if w.fopen s.1 then e == .fwrite i else !isFwrite e
  | _ => !isFwrite e

/-- No read is owed: the last call is not a successful `gbm_bo_map` whose file
opened. -/
def readSettled (w : World) (s : Nat × Option Event) : Bool :=
  match s.2 with
  | some (.gbm_bo_map _ true) => !w.fopen s.1
  | _ => true

/-- A call of the capture loop that the device refuses: a failed `VIDIOC_DQBUF` or a
rejected `VIDIOC_QBUF`. -/
def isFailedCall : Event → Bool
  | .dqbuf none => true
  | .qbuf _ _ false => true
  | _ => false

/-! ## Lemmas on traces -/

theorem replay_append {σ : Type} (step : σ → Event → σ) (s : σ) (a b : List Event) :
    replay step s (a ++ b) = replay step (replay step s a) b := by
  simp [replay, List.foldl_append]

@[simp] theorem replay_nil {σ : Type} (step : σ → Event → σ) (s : σ) :
    replay step s [] = s := rfl

@[simp] theorem replay_cons {σ : Type} (step : σ → Event → σ) (s : σ) (e : Event)
    (es : List Event) : replay step s (e :: es) = replay step (step s e) es := rfl

@[simp] theorem along_nil {σ : Type} (step : σ → Event → σ) (P : σ → Event → Bool) (s : σ) :
    along step P s [] = true := rfl

@[simp] theorem along_cons {σ : Type} (step : σ → Event → σ) (P : σ → Event → Bool) (s : σ)
    (e : Event) (es : List Event) :
    along step P s (e :: es) = (P s e && along step P (step s e) es) := rfl

theorem along_append {σ : Type} (step : σ → Event → σ) (P : σ → Event → Bool) (s : σ)
    (a b : List Event) :
    along step P s (a ++ b) = (along step P s a && along step P (replay step s a) b) := by
  induction a generalizing s with
  | nil => simp [along]
  | cons e es ih => simp [along, ih, Bool.and_assoc]

theorem along_mono {σ : Type} (step : σ → Event → σ) (P Q : σ → Event → Bool)
    (hPQ : ∀ s e, P s e = true → Q s e = true) (s : σ) (tr : List Event)
    (h : along step P s tr = true) : along step Q s tr = true := by
  induction tr generalizing s with
  | nil => simp [along]
  | cons e es ih =>
    simp only [along, Bool.and_eq_true] at h ⊢
    exact ⟨hPQ _ _ h.1, ih _ h.2⟩

theorem mem_statesAlong_append {σ : Type} (step : σ → Event → σ) (s x : σ)
    (a b : List Event) :
    x ∈ statesAlong step s (a ++ b) ↔
      x ∈ statesAlong step s a ∨ x ∈ statesAlong step (replay step s a) b := by
  induction a generalizing s with
  | nil =>
    cases b with
    | nil => simp [statesAlong]
    | cons e es => simp [statesAlong]
  | cons e es ih => simp [statesAlong, ih, or_assoc]

theorem statesBefore_append {σ : Type} (step : σ → Event → σ) (p : Event → Bool) (s : σ)
    (a b : List Event) :
    statesBefore step p s (a ++ b)
      = statesBefore step p s a ++ statesBefore step p (replay step s a) b := by
  induction a generalizing s with
  | nil => simp [statesBefore]
  | cons e es ih => simp [statesBefore, ih]

/-! ## Step 5: the allocation loop -/

theorem allocLoop_some (w : World) (bpl : Nat) (n i : Nat) (bs : List buffer)
    (ev : List Event) (buffers : List buffer)
    (h : allocLoop w bpl n i bs = (ev, some buffers)) :
    ev = allocOk w n i ∧ buffers = bs ++ poolFrom w bpl n i := by
  induction n generalizing i bs ev with
  | zero =>
    simp only [allocLoop, Prod.mk.injEq, Option.some.injEq] at h
    simp [allocOk, poolFrom, h.1.symm, h.2.symm]
  | succ n ih =>
    unfold allocLoop at h
    split_ifs at h with h1 h2 h3
    · simp at h
    · simp at h
    · simp at h
    · simp only [Prod.mk.injEq] at h
      obtain ⟨hev, hb⟩ := h
      have := ih (i + 1) _ _ (Prod.ext rfl hb)
      refine ⟨?_, ?_⟩
      · rw [← hev]; simp only [allocOk]; exact congrArg _ this.1
      · rw [this.2]; simp [poolFrom]

theorem poolFrom_length (w : World) (bpl n i : Nat) : (poolFrom w bpl n i).length = n := by
  induction n generalizing i with
  | zero => rfl
  | succ n ih => simp [poolFrom, ih]

theorem poolFrom_getElem? (w : World) (bpl n i j : Nat) (hj : j < n) :
    (poolFrom w bpl n i)[j]? =
      some { bo_handle := some (i + j), dbuf_fd := w.gbm_bo_get_fd (i + j), length := bpl } := by
  induction n generalizing i j with
  | zero => omega
  | succ n ih =>
    cases j with
    | zero => simp [poolFrom]
    | succ j =>
      simp only [poolFrom, List.getElem?_cons_succ]
      rw [ih (i + 1) j (by omega)]
      simp [Nat.add_assoc, Nat.add_comm 1 j]

theorem poolFrom_eq_pool (w : World) (bpl n : Nat) : poolFrom w bpl n 0 = pool w bpl n := by
  apply List.ext_getElem?
  intro j
  by_cases hj : j < n
  · rw [poolFrom_getElem? w bpl n 0 j hj]
    simp [pool, List.getElem?_map, List.getElem?_range hj]
  · rw [List.getElem?_eq_none (by simp [poolFrom_length]; omega),
      List.getElem?_eq_none (by simp [pool]; omega)]

theorem pool_length (w : World) (bpl n : Nat) : (pool w bpl n).length = n := by
  simp [pool]

theorem pool_getElem? (w : World) (bpl n j : Nat) (hj : j < n) :
    (pool w bpl n)[j]? =
      some { bo_handle := some j, dbuf_fd := w.gbm_bo_get_fd j, length := bpl } := by
  simp [pool, List.getElem?_map, List.getElem?_range hj]

theorem mem_allocOk (w : World) (n i : Nat) (e : Event) (h : e ∈ allocOk w n i) :
    ∃ j, i ≤ j ∧ j < i + n ∧
      (e = .querybuf j true ∨ e = .gbm_bo_create j true ∨ e = .qbuf j (w.gbm_bo_get_fd j) true) := by
  induction n generalizing i with
  | zero => simp [allocOk] at h
  | succ n ih =>
    simp only [allocOk, List.cons_append, List.nil_append, List.mem_cons] at h
    rcases h with h | h | h | h
    · exact ⟨i, le_refl _, by omega, Or.inl h⟩
    · exact ⟨i, le_refl _, by omega, Or.inr (Or.inl h)⟩
    · exact ⟨i, le_refl _, by omega, Or.inr (Or.inr h)⟩
    · obtain ⟨j, h1, h2, h3⟩ := ih (i + 1) h
      exact ⟨j, by omega, by omega, h3⟩

theorem qbuf_mem_allocOk (w : World) (n i j : Nat) (h1 : i ≤ j) (h2 : j < i + n) :
    Event.qbuf j (w.gbm_bo_get_fd j) true ∈ allocOk w n i := by
  induction n generalizing i with
  | zero => omega
  | succ n ih =>
    simp only [allocOk, List.cons_append, List.nil_append, List.mem_cons]
    by_cases hij : i = j
    · subst hij; simp
    · right; right; right
      exact ih (i + 1) (by omega) (by omega)

/-! ## Counting held slots -/

theorem countP_eq_le_one (N a : Nat) : (List.range N).countP (fun i => i == a) ≤ 1 := by
  have h := (List.nodup_iff_count_le_one.mp (List.nodup_range N)) a
  simpa [List.count] using h

theorem held_le_two (N : Nat) (q : Queue) (a b : Nat)
    (h : ∀ i, i < N → q i = .HELD → i = a ∨ i = b) : held N q ≤ 2 := by
  unfold held
  have h1 : (List.range N).countP (fun i => q i == .HELD)
      ≤ (List.range N).countP (fun i => i == a || i == b) := by
    apply List.countP_mono_left
    intro x hx hq
    have := h x (List.mem_range.mp hx) (by simpa using hq)
    simpa using this
  have h2 : ∀ l : List Nat, l.countP (fun i => i == a || i == b)
      ≤ l.countP (fun i => i == a) + l.countP (fun i => i == b) := by
    intro l
    induction l with
    | nil => simp
    | cons x xs ih =>
      simp only [List.countP_cons]
      by_cases hxa : x = a <;> by_cases hxb : x = b <;> simp [hxa, hxb] <;> omega
  have h3 := h2 (List.range N)
  have h4 := countP_eq_le_one N a
  have h5 := countP_eq_le_one N b
  omega

theorem held_le_one (N : Nat) (q : Queue) (a : Nat)
    (h : ∀ i, i < N → q i = .HELD → i = a) : held N q ≤ 1 := by
  unfold held
  have h1 : (List.range N).countP (fun i => q i == .HELD)
      ≤ (List.range N).countP (fun i => i == a) := by
    apply List.countP_mono_left
    intro x hx hq
    have := h x (List.mem_range.mp hx) (by simpa using hq)
    simpa using this
  have h4 := countP_eq_le_one N a
  omega

theorem held_eq_zero (N : Nat) (q : Queue) (h : ∀ i, i < N → q i ≠ .HELD) : held N q = 0 := by
  unfold held
  rw [List.countP_eq_zero]
  intro x hx
  simpa using h x (List.mem_range.mp hx)

theorem held_add_available (N : Nat) (q : Queue) : held N q + available N q = N := by
  unfold held available
  have h := List.length_eq_countP_add_countP (fun i => q i == Slot.HELD) (List.range N)
  have h2 : (List.range N).countP (fun i => decide ¬(q i == Slot.HELD) = true)
      = (List.range N).countP (fun i => q i == .QUEUED || q i == .FREE) := by
    congr 1
    funext i
    cases q i <;> simp
  simp only [List.length_range] at h
  omega

/-! ## The queue as the program sees it -/

theorem toInt32_of_lt (u : Nat) (h : u < 2 ^ 31) : toInt32 u = (u : Int) := by
  unfold toInt32
  have h1 : u % 2 ^ 32 = u := Nat.mod_eq_of_lt (by omega)
  rw [h1, if_pos h]

theorem qAlloc_eq_qOf (N : Nat) : qAlloc N = qOf N (-1) := by
  funext j
  simp only [qAlloc, qOf]
  split_ifs with h1 h2
  · contradiction
  · rfl
  · rfl

theorem held_qOf (N : Nat) (cur : Int) : held N (qOf N cur) ≤ 1 := by
  apply held_le_one N _ cur.toNat
  intro i hi h
  simp only [qOf, hi, if_true] at h
  split_ifs at h with h1
  omega

theorem qOf_set_held (N : Nat) (idx : Nat) (h : idx < N) :
    (qOf N (-1)).set idx .HELD = qOf N idx := by
  funext j
  simp only [Queue.set, qOf]
  split_ifs <;> first | rfl | contradiction | omega

theorem qOf_set_set (N : Nat) (c idx : Nat) (hc : c < N) (h : idx < N) (hne : idx ≠ c) :
    ((qOf N c).set idx .HELD).set c .QUEUED = qOf N idx := by
  funext j
  simp only [Queue.set, qOf]
  split_ifs <;> first | rfl | contradiction | omega

theorem held_qOf_set (N : Nat) (cur : Int) (idx : Nat) :
    held N ((qOf N cur).set idx .HELD) ≤ 2 := by
  apply held_le_two N _ cur.toNat idx
  intro i hi h
  simp only [Queue.set, qOf, hi, if_true] at h
  split_ifs at h with h1 h2
  · right; exact h1
  · left; omega

/-! ## Step 7: one pass through the body -/

theorem mem_dumpFrame (w : World) (fc idx : Nat) (e : Event) (h : e ∈ dumpFrame w fc idx) :
    e = .gbm_bo_map idx true ∨ e = .gbm_bo_map idx false ∨ e = .fwrite idx := by
  unfold dumpFrame at h
  split_ifs at h <;> simp at h <;> tauto

theorem along_same {σ : Type} (step : σ → Event → σ) (P : σ → Event → Bool) (s : σ)
    (tr : List Event) (h : ∀ e ∈ tr, step s e = s ∧ P s e = true) :
    along step P s tr = true := by
  induction tr with
  | nil => rfl
  | cons e es ih =>
    simp only [along, Bool.and_eq_true]
    have he := h e (List.mem_cons_self _ _)
    refine ⟨he.2, ?_⟩
    rw [he.1]
    exact ih (fun e' he' => h e' (List.mem_cons_of_mem _ he'))

theorem replay_same {σ : Type} (step : σ → Event → σ) (s : σ) (tr : List Event)
    (h : ∀ e ∈ tr, step s e = s) : replay step s tr = s := by
  induction tr with
  | nil => rfl
  | cons e es ih =>
    simp only [replay_cons]
    rw [h e (List.mem_cons_self _ _)]
    exact ih (fun e' he' => h e' (List.mem_cons_of_mem _ he'))

theorem replay_dumpFrame (w : World) (fc idx : Nat) (q : Queue) :
    replay Queue.step q (dumpFrame w fc idx) = q := by
  apply replay_same
  intro e he
  rcases mem_dumpFrame w fc idx e he with h | h | h <;> subst h <;> rfl

/-- The shapes a pass through the body can take. -/
theorem loopBody_cases (w : World) (buffers : List buffer) (fc : Nat) (st : stream) :
    (w.dqbuf fc = none ∧ loopBody w buffers fc st = ([.dqbuf none], .returned EXIT_FAILURE))
    ∨ (∃ idx, w.dqbuf fc = some idx ∧ buffers.length ≤ idx
        ∧ loopBody w buffers fc st = ([.dqbuf (some idx)], .undefined))
    ∨ (∃ idx, w.dqbuf fc = some idx ∧ idx < buffers.length ∧ st.current_buffer = -1
        ∧ loopBody w buffers fc st =
          (.dqbuf (some idx) :: dumpFrame w fc idx,
            .next { st with current_buffer := toInt32 idx }))
    ∨ (∃ idx, w.dqbuf fc = some idx ∧ idx < buffers.length ∧ st.current_buffer ≠ -1
        ∧ vectorAt st.buffers st.current_buffer = none
        ∧ loopBody w buffers fc st = (.dqbuf (some idx) :: dumpFrame w fc idx, .undefined))
    ∨ (∃ idx b, w.dqbuf fc = some idx ∧ idx < buffers.length ∧ st.current_buffer ≠ -1
        ∧ vectorAt st.buffers st.current_buffer = some b ∧ w.requeue fc = true
        ∧ loopBody w buffers fc st =
          (.dqbuf (some idx) :: dumpFrame w fc idx
              ++ [.qbuf st.current_buffer.toNat b.dbuf_fd true],
            .next { st with current_buffer := toInt32 idx }))
    ∨ (∃ idx b, w.dqbuf fc = some idx ∧ idx < buffers.length ∧ st.current_buffer ≠ -1
        ∧ vectorAt st.buffers st.current_buffer = some b ∧ w.requeue fc = false
        ∧ loopBody w buffers fc st =
          (.dqbuf (some idx) :: dumpFrame w fc idx
              ++ [.qbuf st.current_buffer.toNat b.dbuf_fd false],
            .returned EXIT_FAILURE)) := by
  unfold loopBody
  cases hd : w.dqbuf fc with
  | none => left; simp
  | some idx =>
    right
    cases hb : buffers[idx]? with
    | none =>
      left
      exact ⟨idx, rfl, by simpa using hb, by simp [hb]⟩
    | some b0 =>
      right
      have hlt : idx < buffers.length := by
        by_contra hcon
        rw [List.getElem?_eq_none (by omega)] at hb
        simp at hb
      by_cases hc : st.current_buffer = -1
      · left
        exact ⟨idx, rfl, hlt, hc, by simp [hc, hb]⟩
      · right
        cases hv : vectorAt st.buffers st.current_buffer with
        | none =>
          left
          exact ⟨idx, rfl, hlt, hc, rfl, by simp [hc, hb, hv]⟩
        | some b =>
          right
          cases hr : w.requeue fc with
          | true =>
            left
            exact ⟨idx, b, rfl, hlt, hc, rfl, rfl, by simp [hc, hb, hv, hr]⟩
          | false =>
            right
            exact ⟨idx, b, rfl, hlt, hc, rfl, rfl, by simp [hc, hb, hv, hr]⟩

theorem vectorAt_some (v : List buffer) (c : Int) (b : buffer) (h : vectorAt v c = some b) :
    0 ≤ c ∧ c.toNat < v.length ∧ v[c.toNat]? = some b := by
  unfold vectorAt at h
  split_ifs at h with h0
  refine ⟨by omega, ?_, h⟩
  by_contra hcon
  rw [List.getElem?_eq_none (by omega)] at h
  simp at h

theorem loopBody_ghost (w : World) (buffers : List buffer) (fc : Nat) (st : stream) (N : Nat)
    (hN : N ≤ 2 ^ 31) (hlen : buffers.length = N) (hst : st.buffers = buffers)
    (hcur : CurOk N st.current_buffer)
    (hdev : along Queue.step dequeuesQueued (qOf N st.current_buffer)
      (loopBody w buffers fc st).1 = true) :
    along Queue.step (loopCheck N) (qOf N st.current_buffer) (loopBody w buffers fc st).1 = true
    ∧ held N (replay Queue.step (qOf N st.current_buffer) (loopBody w buffers fc st).1) ≤ 2
    ∧ ∀ st', (loopBody w buffers fc st).2 = .next st' →
        st'.buffers = buffers ∧ CurOk N st'.current_buffer
        ∧ replay Queue.step (qOf N st.current_buffer) (loopBody w buffers fc st).1
            = qOf N st'.current_buffer := by
  have hq1 := held_qOf N st.current_buffer
  have hdump : ∀ idx, along Queue.step (loopCheck N) ((qOf N st.current_buffer).set idx .HELD)
      (dumpFrame w fc idx) = true := by
    intro idx
    apply along_same
    intro e he
    have h2 := held_qOf_set N st.current_buffer idx
    rcases mem_dumpFrame w fc idx e he with h | h | h <;> subst h <;>
      simp [Queue.step, loopCheck, isPoll, submitsFresh, h2]
  rcases loopBody_cases w buffers fc st with
    ⟨_, hb⟩ | ⟨idx, _, hge, hb⟩ | ⟨idx, _, hlt, hc, hb⟩ | ⟨idx, _, hlt, hc, hv, hb⟩
    | ⟨idx, b, _, hlt, hc, hv, _, hb⟩ | ⟨idx, b, _, hlt, hc, hv, _, hb⟩
  · rw [hb]
    refine ⟨?_, ?_, ?_⟩
    · simp [loopCheck, isPoll, submitsFresh]; omega
    · simp [Queue.step]; omega
    · intro st' h; simp at h
  · rw [hb] at hdev
    simp only [along_cons, along_nil, dequeuesQueued, Bool.and_true, beq_iff_eq] at hdev
    simp only [qOf] at hdev
    split_ifs at hdev
    omega
  · rw [hb] at hdev ⊢
    simp only [along_cons, dequeuesQueued, Bool.and_eq_true, beq_iff_eq] at hdev
    have hidx : idx < 2 ^ 31 := by omega
    refine ⟨?_, ?_, ?_⟩
    · simp only [along_cons, Bool.and_eq_true, Queue.step]
      refine ⟨?_, hdump idx⟩
      simp [loopCheck, isPoll, submitsFresh]; omega
    · simp only [replay_cons, Queue.step, replay_dumpFrame]
      exact held_qOf_set N _ idx
    · intro st' h
      simp only [BodyExit.next.injEq] at h
      subst h
      simp only [replay_cons, Queue.step, replay_dumpFrame, toInt32_of_lt idx hidx]
      refine ⟨hst, Or.inr ⟨by omega, by omega⟩, ?_⟩
      rw [hc]
      exact qOf_set_held N idx (by omega)
  · exfalso
    rcases hcur with h | ⟨h0, h1⟩
    · exact hc h
    · unfold vectorAt at hv
      rw [if_neg (by omega), hst, List.getElem?_eq_getElem (by omega)] at hv
      simp at hv
  all_goals
    rcases hcur with h | ⟨h0, h1⟩
    · exact absurd h hc
    obtain ⟨c, hcc⟩ := Int.eq_ofNat_of_zero_le h0
    have hcN : c < N := by omega
    rw [hb] at hdev ⊢
    simp only [hcc] at hdev hdump hq1 ⊢
    simp only [List.cons_append, along_cons, dequeuesQueued, Bool.and_eq_true, beq_iff_eq] at hdev
    have hne : idx ≠ c := by
      have := hdev.1
      simp only [qOf] at this
      split_ifs at this
      omega
    have hidx : idx < 2 ^ 31 := by omega
    have hheld : ((qOf N (c : Int)).set idx .HELD) c = .HELD := by
      simp [Queue.set, qOf, hcN, Ne.symm hne]
    refine ⟨?_, ?_, ?_⟩
    · simp only [List.cons_append, along_cons, along_nil, Bool.and_eq_true, Queue.step,
        along_append, replay_dumpFrame, Int.toNat_ofNat, Bool.and_true]
      refine ⟨?_, hdump idx, ?_⟩
      · simp [loopCheck, isPoll, submitsFresh]; omega
      · have h2 := held_qOf_set N (c : Int) idx
        simp [loopCheck, isPoll, submitsFresh, h2, hheld]
    · simp only [List.cons_append, replay_cons, replay_append, Queue.step, replay_dumpFrame,
        replay_nil, Int.toNat_ofNat]
      first
        | (rw [qOf_set_set N c idx hcN (by omega) hne]; have := held_qOf N (idx : Int); omega)
        | exact held_qOf_set N _ idx
    · intro st' h
      first
        | (simp only [BodyExit.next.injEq] at h
           subst h
           simp only [List.cons_append, replay_cons, replay_append, Queue.step,
             replay_dumpFrame, replay_nil, Int.toNat_ofNat, toInt32_of_lt idx hidx]
           exact ⟨hst, Or.inr ⟨by omega, by omega⟩, qOf_set_set N c idx hcN (by omega) hne⟩)
        | simp at h

/-! ## Step 7: the loop -/

theorem captureLoop_zero (w : World) (buffers : List buffer) (fc : Nat) (st : stream) :
    captureLoop w buffers 0 fc st = ([], .fuel) := rfl

theorem captureLoop_done (w : World) (buffers : List buffer) (fuel fc : Nat) (st : stream)
    (h : ¬ fc < 5) :
    captureLoop w buffers (fuel + 1) fc st = ([], .condition (fc + 1) st) := by
  simp [captureLoop, h]

theorem captureLoop_wait_failed (w : World) (buffers : List buffer) (fuel fc : Nat)
    (st : stream) (h : fc < 5) (hp : ¬ w.poll (fc + 1) > 0) :
    captureLoop w buffers (fuel + 1) fc st
      = ([.poll (w.poll (fc + 1))], .condition (fc + 1) st) := by
  simp only [captureLoop, h, if_true]
  rw [if_neg hp]

theorem captureLoop_next (w : World) (buffers : List buffer) (fuel fc : Nat) (st : stream)
    (h : fc < 5) (hp : w.poll (fc + 1) > 0) (ev : List Event) (st' : stream)
    (hb : loopBody w buffers (fc + 1) st = (ev, .next st')) :
    captureLoop w buffers (fuel + 1) fc st
      = (.poll (w.poll (fc + 1)) :: ev ++ (captureLoop w buffers fuel (fc + 1) st').1,
          (captureLoop w buffers fuel (fc + 1) st').2) := by
  simp only [captureLoop, h, if_true]
  rw [if_pos hp, hb]

theorem captureLoop_returned (w : World) (buffers : List buffer) (fuel fc : Nat) (st : stream)
    (h : fc < 5) (hp : w.poll (fc + 1) > 0) (ev : List Event) (code : Int)
    (hb : loopBody w buffers (fc + 1) st = (ev, .returned code)) :
    captureLoop w buffers (fuel + 1) fc st
      = (.poll (w.poll (fc + 1)) :: ev, .returned code) := by
  simp only [captureLoop, h, if_true]
  rw [if_pos hp, hb]

theorem captureLoop_undefined (w : World) (buffers : List buffer) (fuel fc : Nat) (st : stream)
    (h : fc < 5) (hp : w.poll (fc + 1) > 0) (ev : List Event)
    (hb : loopBody w buffers (fc + 1) st = (ev, .undefined)) :
    captureLoop w buffers (fuel + 1) fc st
      = (.poll (w.poll (fc + 1)) :: ev, .undefined) := by
  simp only [captureLoop, h, if_true]
  rw [if_pos hp, hb]

/-- The ways a step of the loop can go, as a case split for the proofs below. -/
theorem captureLoop_cases (w : World) (buffers : List buffer) (fuel fc : Nat) (st : stream) :
    (¬ fc < 5 ∧ captureLoop w buffers (fuel + 1) fc st = ([], .condition (fc + 1) st))
    ∨ (fc < 5 ∧ ¬ w.poll (fc + 1) > 0 ∧ captureLoop w buffers (fuel + 1) fc st
        = ([.poll (w.poll (fc + 1))], .condition (fc + 1) st))
    ∨ (fc < 5 ∧ w.poll (fc + 1) > 0 ∧ ∃ ev st', loopBody w buffers (fc + 1) st = (ev, .next st')
        ∧ captureLoop w buffers (fuel + 1) fc st
          = (.poll (w.poll (fc + 1)) :: ev ++ (captureLoop w buffers fuel (fc + 1) st').1,
              (captureLoop w buffers fuel (fc + 1) st').2))
    ∨ (fc < 5 ∧ w.poll (fc + 1) > 0 ∧ ∃ ev code,
        loopBody w buffers (fc + 1) st = (ev, .returned code)
        ∧ captureLoop w buffers (fuel + 1) fc st
          = (.poll (w.poll (fc + 1)) :: ev, .returned code))
    ∨ (fc < 5 ∧ w.poll (fc + 1) > 0 ∧ ∃ ev, loopBody w buffers (fc + 1) st = (ev, .undefined)
        ∧ captureLoop w buffers (fuel + 1) fc st
          = (.poll (w.poll (fc + 1)) :: ev, .undefined)) := by
  by_cases h : fc < 5
  · by_cases hp : w.poll (fc + 1) > 0
    · rcases hb : loopBody w buffers (fc + 1) st with ⟨ev, ex⟩
      cases ex with
      | next st' =>
        exact Or.inr (Or.inr (Or.inl ⟨h, hp, ev, st', rfl, captureLoop_next w buffers fuel fc st h hp ev st' hb⟩))
      | returned code =>
        exact Or.inr (Or.inr (Or.inr (Or.inl
          ⟨h, hp, ev, code, rfl, captureLoop_returned w buffers fuel fc st h hp ev code hb⟩)))
      | undefined =>
        exact Or.inr (Or.inr (Or.inr (Or.inr
          ⟨h, hp, ev, rfl, captureLoop_undefined w buffers fuel fc st h hp ev hb⟩)))
    · exact Or.inr (Or.inl ⟨h, hp, captureLoop_wait_failed w buffers fuel fc st h hp⟩)
  · exact Or.inl ⟨h, captureLoop_done w buffers fuel fc st h⟩

theorem captureLoop_ghost (w : World) (buffers : List buffer) (N : Nat) (hN : N ≤ 2 ^ 31)
    (hlen : buffers.length = N) (fuel fc : Nat) (st : stream) (hst : st.buffers = buffers)
    (hcur : CurOk N st.current_buffer)
    (hdev : along Queue.step dequeuesQueued (qOf N st.current_buffer)
      (captureLoop w buffers fuel fc st).1 = true) :
    along Queue.step (loopCheck N) (qOf N st.current_buffer)
        (captureLoop w buffers fuel fc st).1 = true
    ∧ held N (replay Queue.step (qOf N st.current_buffer)
        (captureLoop w buffers fuel fc st).1) ≤ 2 := by
  have hq1 := held_qOf N st.current_buffer
  induction fuel generalizing fc st with
  | zero => simp [captureLoop_zero]; omega
  | succ fuel ih =>
    have hpoll : ∀ r, loopCheck N (qOf N st.current_buffer) (.poll r) = true := by
      intro r; simp [loopCheck, isPoll, submitsFresh, hq1]; omega
    rcases captureLoop_cases w buffers fuel fc st with
      ⟨_, h⟩ | ⟨_, _, h⟩ | ⟨_, _, ev, st', hb, h⟩ | ⟨_, _, ev, code, hb, h⟩ | ⟨_, _, ev, hb, h⟩
    · rw [h]; simp; omega
    · rw [h]; simp [hpoll, Queue.step]; omega
    · rw [h] at hdev ⊢
      simp only [List.cons_append, along_cons, along_append, Bool.and_eq_true, Queue.step]
        at hdev ⊢
      have hbody := loopBody_ghost w buffers (fc + 1) st N hN hlen hst hcur (by rw [hb]; exact hdev.2.1)
      rw [hb] at hbody
      obtain ⟨hb1, _, hb3⟩ := hbody
      obtain ⟨hst', hcur', hrep⟩ := hb3 st' rfl
      simp only at hrep hb1
      rw [hrep] at hdev ⊢
      have hrec := ih (fc + 1) st' hst' hcur' hdev.2.2 (held_qOf N _)
      refine ⟨⟨hpoll _, hb1, hrec.1⟩, ?_⟩
      simp only [replay_cons, replay_append, Queue.step, hrep]
      exact hrec.2
    · rw [h] at hdev ⊢
      simp only [along_cons, Bool.and_eq_true, Queue.step] at hdev ⊢
      have hbody := loopBody_ghost w buffers (fc + 1) st N hN hlen hst hcur (by rw [hb]; exact hdev.2)
      rw [hb] at hbody
      exact ⟨⟨hpoll _, hbody.1⟩, by simpa [Queue.step] using hbody.2.1⟩
    · rw [h] at hdev ⊢
      simp only [along_cons, Bool.and_eq_true, Queue.step] at hdev ⊢
      have hbody := loopBody_ghost w buffers (fc + 1) st N hN hlen hst hcur (by rw [hb]; exact hdev.2)
      rw [hb] at hbody
      exact ⟨⟨hpoll _, hbody.1⟩, by simpa [Queue.step] using hbody.2.1⟩

/-! ## The shape of a run -/

theorem allocLoop_setup (w : World) (bpl n i : Nat) (bs : List buffer) :
    ∀ e ∈ (allocLoop w bpl n i bs).1, isSetupCall e = true := by
  induction n generalizing i bs with
  | zero => simp [allocLoop]
  | succ n ih =>
    unfold allocLoop
    split_ifs
    · simp [isSetupCall]
    · simp [isSetupCall]
    · simp [isSetupCall]
    · simp only [List.cons_append, List.nil_append, List.mem_cons]
      rintro e (h | h | h | h)
      · subst h; rfl
      · subst h; rfl
      · subst h; rfl
      · exact ih _ _ e h

theorem qAlloc_set (i : Nat) : (qAlloc i).set i .QUEUED = qAlloc (i + 1) := by
  funext j
  simp only [Queue.set, qAlloc]
  split_ifs <;> first | rfl | omega

theorem allocLoop_fresh (w : World) (bpl n i : Nat) (bs : List buffer) :
    along Queue.step submitsFresh (qAlloc i) (allocLoop w bpl n i bs).1 = true := by
  induction n generalizing i bs with
  | zero => simp [allocLoop]
  | succ n ih =>
    unfold allocLoop
    split_ifs
    · simp [submitsFresh]
    · simp [submitsFresh]
    · simp [submitsFresh, Queue.step, qAlloc]
    · simp only [List.cons_append, List.nil_append, along_cons, Queue.step, qAlloc_set,
        Bool.and_eq_true]
      refine ⟨by simp [submitsFresh], by simp [submitsFresh], by simp [submitsFresh, qAlloc], ?_⟩
      exact ih _ _

theorem replay_allocOk (w : World) (n i : Nat) :
    replay Queue.step (qAlloc i) (allocOk w n i) = qAlloc (i + n) := by
  induction n generalizing i with
  | zero => rfl
  | succ n ih =>
    simp only [allocOk, List.cons_append, List.nil_append, replay_cons, Queue.step, qAlloc_set]
    rw [ih (i + 1), Nat.add_assoc, Nat.add_comm 1 n]

theorem qAlloc_zero : qAlloc 0 = Queue.fresh := by
  funext j
  simp [qAlloc, Queue.fresh]

theorem main_split (w : World) :
    (∃ c, main w = ⟨[], [], [], none, .exit c⟩)
    ∨ main w = ⟨[.gbm_create_device], [], [], none, .exit EXIT_FAILURE⟩
    ∨ ∃ N bpl, w.reachesAlloc N ∧ main w = allocAndStream w bpl N := by
  by_cases h1 : w.argc = 3
  swap
  · exact Or.inl ⟨1, by simp [main, h1]⟩
  by_cases h2 : w.open_v4l2 < 0
  · exact Or.inl ⟨EXIT_FAILURE, by simp [main, h1, h2]⟩
  cases hq : w.querycap with
  | none => exact Or.inl ⟨EXIT_FAILURE, by simp [main, h1, h2, hq]⟩
  | some b =>
    cases b with
    | false => exact Or.inl ⟨EXIT_FAILURE, by simp [main, h1, h2, hq]⟩
    | true =>
      cases hs : w.s_fmt with
      | false => exact Or.inl ⟨EXIT_FAILURE, by simp [main, h1, h2, hq, hs]⟩
      | true =>
        cases hg : w.g_fmt with
        | none => exact Or.inl ⟨EXIT_FAILURE, by simp [main, h1, h2, hq, hs, hg]⟩
        | some t =>
          obtain ⟨a, b, bpl⟩ := t
          by_cases h4 : w.open_drm < 0
          · exact Or.inl ⟨EXIT_FAILURE, by simp [main, h1, h2, hq, hs, hg, h4]⟩
          cases h5 : w.gbm_create_device with
          | false => exact Or.inl ⟨EXIT_FAILURE, by simp [main, fromGbm, h1, h2, hq, hs, hg, h4, h5]⟩
          | true =>
            cases hr : w.reqbufs with
            | none =>
              exact Or.inr (Or.inl (by simp [main, fromGbm, h1, h2, hq, hs, hg, h4, h5, hr]))
            | some N =>
              refine Or.inr (Or.inr ⟨N, bpl, ⟨h1, by omega, hq, hs, by simp [hg], by omega, h5, hr⟩, ?_⟩)
              simp [main, fromGbm, h1, h2, hq, hs, hg, h4, h5, hr]

theorem main_of_reachesAlloc (w : World) (N : Nat) (h : w.reachesAlloc N) :
    ∃ bpl, main w = allocAndStream w bpl N := by
  obtain ⟨h1, h2, hq, hs, hg, h4, h5, hr⟩ := h
  cases hg' : w.g_fmt with
  | none => simp [hg'] at hg
  | some t =>
    obtain ⟨a, b, bpl⟩ := t
    refine ⟨bpl, ?_⟩
    have h2' : ¬ w.open_v4l2 < 0 := by omega
    have h4' : ¬ w.open_drm < 0 := by omega
    simp [main, fromGbm, h1, h2', hq, hs, hg', h4', h5, hr]

/-- The run from step 5 on: the allocation fails, or `VIDIOC_STREAMON` fails, or the
capture loop runs over the full pool. -/
theorem allocAndStream_split (w : World) (bpl N : Nat) :
    (∃ ev, allocLoop w bpl N 0 [] = (ev, none)
      ∧ allocAndStream w bpl N
        = ⟨.gbm_create_device :: .reqbufs N :: ev, [], [], none, .exit EXIT_FAILURE⟩)
    ∨ (allocLoop w bpl N 0 [] = (allocOk w N 0, some (pool w bpl N)) ∧ w.streamon = false
      ∧ allocAndStream w bpl N
        = ⟨.gbm_create_device :: .reqbufs N :: allocOk w N 0 ++ [.streamon false], [], [], none,
            .exit EXIT_FAILURE⟩)
    ∨ (allocLoop w bpl N 0 [] = (allocOk w N 0, some (pool w bpl N)) ∧ w.streamon = true
      ∧ allocAndStream w bpl N
        = ⟨.gbm_create_device :: .reqbufs N :: allocOk w N 0 ++ [.streamon true],
            (captureLoop w (pool w bpl N) 6 0 (streamInit w (pool w bpl N))).1,
            teardownOf w (pool w bpl N)
              (captureLoop w (pool w bpl N) 6 0 (streamInit w (pool w bpl N))).2,
            some (captureLoop w (pool w bpl N) 6 0 (streamInit w (pool w bpl N))).2,
            statusOf w (captureLoop w (pool w bpl N) 6 0 (streamInit w (pool w bpl N))).2⟩) := by
  rcases ha : allocLoop w bpl N 0 [] with ⟨ev, _ | buffers⟩
  · left
    exact ⟨ev, rfl, by simp [allocAndStream, ha]⟩
  · right
    obtain ⟨hev, hbuf⟩ := allocLoop_some w bpl N 0 [] ev buffers ha
    simp only [List.nil_append, poolFrom_eq_pool] at hbuf
    subst hev hbuf
    cases hs : w.streamon with
    | false => left; exact ⟨rfl, rfl, by simp [allocAndStream, ha, streaming, hs]⟩
    | true => right; exact ⟨rfl, rfl, by simp [allocAndStream, ha, streaming, hs]⟩

/-- The run of `main` either stops before the capture loop, having issued only
set-up calls, or is the run of the capture loop over the full pool. -/
theorem main_run (w : World) :
    ((main w).capture = [] ∧ (main w).teardown = [] ∧ (main w).loopExit = none
      ∧ (∃ c, (main w).status = .exit c)
      ∧ (∀ e ∈ (main w).setup, isSetupCall e = true)
      ∧ along Queue.step submitsFresh Queue.fresh (main w).setup = true)
    ∨ ∃ N bpl, w.reachesAlloc N ∧ w.streamon = true
        ∧ allocLoop w bpl N 0 [] = (allocOk w N 0, some (pool w bpl N))
        ∧ main w =
          ⟨.gbm_create_device :: .reqbufs N :: allocOk w N 0 ++ [.streamon true],
            (captureLoop w (pool w bpl N) 6 0 (streamInit w (pool w bpl N))).1,
            teardownOf w (pool w bpl N)
              (captureLoop w (pool w bpl N) 6 0 (streamInit w (pool w bpl N))).2,
            some (captureLoop w (pool w bpl N) 6 0 (streamInit w (pool w bpl N))).2,
            statusOf w (captureLoop w (pool w bpl N) 6 0 (streamInit w (pool w bpl N))).2⟩ := by
  rcases main_split w with ⟨c, h⟩ | h | ⟨N, bpl, hreach, h⟩
  · left; rw [h]; exact ⟨rfl, rfl, rfl, ⟨c, rfl⟩, by simp, rfl⟩
  · left; rw [h]; exact ⟨rfl, rfl, rfl, ⟨_, rfl⟩, by simp [isSetupCall], by simp [submitsFresh]⟩
  · have hsetup := allocLoop_setup w bpl N 0 []
    have hfresh := allocLoop_fresh w bpl N 0 []
    rw [qAlloc_zero] at hfresh
    rcases allocAndStream_split w bpl N with ⟨ev, ha, h'⟩ | ⟨ha, hs, h'⟩ | ⟨ha, hs, h'⟩
    · left
      rw [h, h']
      rw [ha] at hsetup hfresh
      refine ⟨rfl, rfl, rfl, ⟨_, rfl⟩, ?_, ?_⟩
      · intro e he
        simp only [List.mem_cons] at he
        rcases he with he | he | he
        · subst he; rfl
        · subst he; rfl
        · exact hsetup e he
      · simpa [submitsFresh, Queue.step] using hfresh
    · left
      rw [h, h']
      rw [ha] at hsetup hfresh
      refine ⟨rfl, rfl, rfl, ⟨_, rfl⟩, ?_, ?_⟩
      · intro e he
        simp only [List.cons_append, List.mem_cons, List.mem_append, List.mem_singleton] at he
        rcases he with he | he | he | he
        · subst he; rfl
        · subst he; rfl
        · exact hsetup e he
        · simp only [List.mem_nil_iff, or_false] at he
          subst he; rfl
      · simp only [List.cons_append, along_cons, along_append, Queue.step, Bool.and_eq_true]
        exact ⟨rfl, rfl, hfresh, by simp [submitsFresh]⟩
    · right
      exact ⟨N, bpl, hreach, hs, ha, by rw [h, h']⟩

theorem mem_cleanup (gbm : Bool) (buffers : List buffer) :
    ∀ e ∈ cleanup gbm buffers, isTeardownCall e = true := by
  intro e he
  unfold cleanup at he
  simp only [List.mem_append, List.mem_filterMap, List.mem_cons, List.mem_singleton] at he
  rcases he with (he | ⟨b, _, hb⟩) | he | he | he
  · split_ifs at he
    · simp only [List.mem_singleton] at he; subst he; rfl
    · simp at he
  · cases hh : b.bo_handle with
    | none => simp [hh] at hb
    | some j => simp [hh] at hb; subst hb; rfl
  · subst he; rfl
  · subst he; rfl
  · simp at he

theorem mem_stopStreaming (w : World) (fc : Nat) :
    ∀ e ∈ stopStreaming w fc, isTeardownCall e = true := by
  intro e he
  unfold stopStreaming at he
  simp only [List.mem_append, List.mem_singleton] at he
  rcases he with he | he
  · split_ifs at he
    · simp only [List.mem_singleton] at he; subst he; rfl
    · simp at he
  · subst he; rfl

theorem mem_teardownOf (w : World) (buffers : List buffer) (ex : LoopExit) :
    ∀ e ∈ teardownOf w buffers ex, isTeardownCall e = true := by
  intro e he
  cases ex with
  | condition fc st =>
    simp only [teardownOf] at he
    split_ifs at he
    · exact mem_stopStreaming w fc e he
    · rcases List.mem_append.mp he with h | h
      · exact mem_stopStreaming w fc e h
      · exact mem_cleanup _ _ e h
  | returned c => simp [teardownOf] at he
  | undefined => simp [teardownOf] at he
  | fuel => simp [teardownOf] at he

theorem along_of_forall {σ : Type} (step : σ → Event → σ) (P : σ → Event → Bool) (s : σ)
    (tr : List Event) (h : ∀ e ∈ tr, ∀ s', P s' e = true) : along step P s tr = true := by
  induction tr generalizing s with
  | nil => rfl
  | cons e es ih =>
    simp only [along_cons, Bool.and_eq_true]
    exact ⟨h e (List.mem_cons_self _ _) s, ih _ (fun e' he' => h e' (List.mem_cons_of_mem _ he'))⟩

theorem statesAlong_of_along {σ : Type} (step : σ → Event → σ) (P : σ → Event → Bool)
    (Q : σ → Prop) (hPQ : ∀ s e, P s e = true → Q s) (s : σ) (tr : List Event)
    (h : along step P s tr = true) (hlast : Q (replay step s tr)) :
    ∀ x ∈ statesAlong step s tr, Q x := by
  induction tr generalizing s with
  | nil => intro x hx; simp only [statesAlong, List.mem_singleton] at hx; subst hx; exact hlast
  | cons e es ih =>
    simp only [along_cons, Bool.and_eq_true] at h
    intro x hx
    simp only [statesAlong, List.mem_cons] at hx
    rcases hx with hx | hx
    · subst hx; exact hPQ _ _ h.1
    · exact ih _ h.2 hlast x hx

theorem statesBefore_of_along {σ : Type} (step : σ → Event → σ) (P : σ → Event → Bool)
    (p : Event → Bool) (Q : σ → Prop) (hPQ : ∀ s e, P s e = true → p e = true → Q s) (s : σ)
    (tr : List Event) (h : along step P s tr = true) :
    ∀ x ∈ statesBefore step p s tr, Q x := by
  induction tr generalizing s with
  | nil => intro x hx; simp [statesBefore] at hx
  | cons e es ih =>
    simp only [along_cons, Bool.and_eq_true] at h
    intro x hx
    simp only [statesBefore, List.mem_append] at hx
    rcases hx with hx | hx
    · split_ifs at hx with hp
      · simp only [List.mem_singleton] at hx; subst hx; exact hPQ _ _ h.1 hp
      · simp at hx
    · exact ih _ h.2 x hx

theorem replay_setup (w : World) (N : Nat) :
    replay Queue.step Queue.fresh
      (.gbm_create_device :: .reqbufs N :: allocOk w N 0 ++ [.streamon true]) = qOf N (-1) := by
  simp only [List.cons_append, replay_cons, replay_append, Queue.step, replay_nil]
  rw [← qAlloc_zero, replay_allocOk, Nat.zero_add, qAlloc_eq_qOf]

theorem no_held_of_setup (tr : List Event) (q : Queue) (hq : ∀ i, q i ≠ .HELD)
    (h : ∀ e ∈ tr, isSetupCall e = true) : ∀ i, replay Queue.step q tr i ≠ .HELD := by
  induction tr generalizing q with
  | nil => exact hq
  | cons e es ih =>
    simp only [replay_cons]
    apply ih
    · have he := h e (List.mem_cons_self _ _)
      cases e <;> simp [isSetupCall] at he <;> try exact hq
      rename_i i fd ok
      cases ok
      · exact hq
      · intro j
        simp only [Queue.step, Queue.set]
        split_ifs
        · simp
        · exact hq j
    · exact fun e' he' => h e' (List.mem_cons_of_mem _ he')

/-- In a run whose device dequeues only queued slots, during the capture loop every
call is issued with at most two slots held, the readiness wait is entered with at
most one held, every submitted slot is not queued, and at most two are held at the
end. -/
theorem capture_ghost (w : World) (hb : ∀ n, w.reqbufs = some n → n ≤ 2 ^ 31)
    (hdev : along Queue.step dequeuesQueued Queue.fresh (main w).trace = true)
    (N : Nat) (hN : w.reqbufs = some N) :
    along Queue.step (loopCheck N) (replay Queue.step Queue.fresh (main w).setup)
        (main w).capture = true
    ∧ held N (replay Queue.step (replay Queue.step Queue.fresh (main w).setup)
        (main w).capture) ≤ 2 := by
  rcases main_run w with ⟨hc, _, _, _, hs, _⟩ | ⟨N', bpl, hreach, _, _, hrun⟩
  · rw [hc]
    have h0 := held_eq_zero N _ (fun i _ =>
      no_held_of_setup (main w).setup Queue.fresh (by simp [Queue.fresh]) hs i)
    simp only [along_nil, replay_nil, true_and]
    omega
  · have hNN : N' = N := by
      have := hreach.2.2.2.2.2.2.2
      rw [hN] at this
      exact (Option.some.inj this).symm
    subst hNN
    rw [hrun] at hdev ⊢
    simp only [Run.trace, along_append, Bool.and_eq_true, replay_setup] at hdev ⊢
    exact captureLoop_ghost w (pool w bpl N') N' (hb N' hN) (pool_length w bpl N') 6 0
      (streamInit w (pool w bpl N')) rfl (Or.inl rfl) hdev.1.2

/-! ## What the capture loop issues and how it ends -/

theorem mem_loopBody (w : World) (bpl N fc : Nat) (st : stream)
    (hst : st.buffers = pool w bpl N) :
    ∀ e ∈ (loopBody w (pool w bpl N) fc st).1,
      isCaptureCall e = true ∧ isPoll e = false
      ∧ ∀ i fd ok, e = .qbuf i fd ok → i < N ∧ fd = w.gbm_bo_get_fd i := by
  have hdump : ∀ idx, ∀ e ∈ dumpFrame w fc idx,
      isCaptureCall e = true ∧ isPoll e = false
      ∧ ∀ i fd ok, e = .qbuf i fd ok → i < N ∧ fd = w.gbm_bo_get_fd i := by
    intro idx e he
    rcases mem_dumpFrame w fc idx e he with h | h | h <;> subst h <;>
      exact ⟨rfl, rfl, by intro i fd ok h; cases h⟩
  have hdq : ∀ o, isCaptureCall (.dqbuf o) = true ∧ isPoll (.dqbuf o) = false
      ∧ ∀ i fd ok, Event.dqbuf o = .qbuf i fd ok → i < N ∧ fd = w.gbm_bo_get_fd i :=
    fun o => ⟨rfl, rfl, by intro i fd ok h; cases h⟩
  have hq : ∀ b ok, vectorAt st.buffers st.current_buffer = some b →
      isCaptureCall (.qbuf st.current_buffer.toNat b.dbuf_fd ok) = true
      ∧ isPoll (.qbuf st.current_buffer.toNat b.dbuf_fd ok) = false
      ∧ ∀ i fd ok', Event.qbuf st.current_buffer.toNat b.dbuf_fd ok = .qbuf i fd ok' →
          i < N ∧ fd = w.gbm_bo_get_fd i := by
    intro b ok hv
    refine ⟨rfl, rfl, ?_⟩
    intro i fd ok' h
    simp only [Event.qbuf.injEq] at h
    obtain ⟨h0, h1, h2⟩ := vectorAt_some _ _ _ hv
    rw [hst, pool_length] at h1
    rw [hst, pool_getElem? w bpl N _ h1] at h2
    have hb := Option.some.inj h2
    rw [← h.1, ← h.2.1, ← hb]
    exact ⟨h1, rfl⟩
  intro e he
  rcases loopBody_cases w (pool w bpl N) fc st with
    ⟨_, hb⟩ | ⟨idx, _, _, hb⟩ | ⟨idx, _, _, _, hb⟩ | ⟨idx, _, _, _, _, hb⟩
    | ⟨idx, b, _, _, _, hv, _, hb⟩ | ⟨idx, b, _, _, _, hv, _, hb⟩
  all_goals
    rw [hb] at he
    simp only [List.cons_append, List.mem_cons, List.mem_append, List.mem_singleton,
      List.mem_nil_iff, or_false] at he
  · subst he; exact hdq _
  · subst he; exact hdq _
  · rcases he with he | he
    · subst he; exact hdq _
    · exact hdump idx e he
  · rcases he with he | he
    · subst he; exact hdq _
    · exact hdump idx e he
  · rcases he with he | he | he
    · subst he; exact hdq _
    · exact hdump idx e he
    · subst he; exact hq b true hv
  · rcases he with he | he | he
    · subst he; exact hdq _
    · exact hdump idx e he
    · subst he; exact hq b false hv

theorem loopBody_next (w : World) (buffers : List buffer) (fc : Nat) (st st' : stream)
    (h : (loopBody w buffers fc st).2 = .next st') :
    st'.buffers = st.buffers
    ∧ ∃ idx, w.dqbuf fc = some idx ∧ idx < buffers.length ∧ st'.current_buffer = toInt32 idx := by
  rcases loopBody_cases w buffers fc st with
    ⟨_, hb⟩ | ⟨idx, _, _, hb⟩ | ⟨idx, hd, hlt, _, hb⟩ | ⟨idx, _, _, _, _, hb⟩
    | ⟨idx, b, hd, hlt, _, _, _, hb⟩ | ⟨idx, b, _, _, _, _, _, hb⟩
  all_goals
    rw [hb] at h
    cases h
  · exact ⟨rfl, idx, hd, hlt, rfl⟩
  · exact ⟨rfl, idx, hd, hlt, rfl⟩

theorem loopBody_returned (w : World) (buffers : List buffer) (fc : Nat) (st : stream)
    (code : Int) (h : (loopBody w buffers fc st).2 = .returned code) :
    code = EXIT_FAILURE
    ∧ ((loopBody w buffers fc st).1.getLast? = some (.dqbuf none)
      ∨ ∃ i fd, (loopBody w buffers fc st).1.getLast? = some (.qbuf i fd false)) := by
  rcases loopBody_cases w buffers fc st with
    ⟨_, hb⟩ | ⟨idx, _, _, hb⟩ | ⟨idx, hd, hlt, _, hb⟩ | ⟨idx, _, _, _, _, hb⟩
    | ⟨idx, b, hd, hlt, _, _, _, hb⟩ | ⟨idx, b, _, _, _, _, _, hb⟩
  all_goals
    rw [hb] at h ⊢
    cases h
  · exact ⟨rfl, Or.inl rfl⟩
  · refine ⟨rfl, Or.inr ⟨st.current_buffer.toNat, b.dbuf_fd, ?_⟩⟩
    simp only []
    rw [List.getLast?_append]
    rfl

theorem mem_captureLoop (w : World) (bpl N fuel fc : Nat) (st : stream)
    (hst : st.buffers = pool w bpl N) :
    ∀ e ∈ (captureLoop w (pool w bpl N) fuel fc st).1,
      isCaptureCall e = true
      ∧ ∀ i fd ok, e = .qbuf i fd ok → i < N ∧ fd = w.gbm_bo_get_fd i := by
  induction fuel generalizing fc st with
  | zero => simp [captureLoop_zero]
  | succ fuel ih =>
    have hpoll : ∀ r, isCaptureCall (.poll r) = true
        ∧ ∀ i fd ok, Event.poll r = .qbuf i fd ok → i < N ∧ fd = w.gbm_bo_get_fd i :=
      fun r => ⟨rfl, by intro i fd ok h; cases h⟩
    have hbody := mem_loopBody w bpl N (fc + 1) st hst
    intro e he
    rcases captureLoop_cases w (pool w bpl N) fuel fc st with
      ⟨_, h⟩ | ⟨_, _, h⟩ | ⟨_, _, ev, st', hb, h⟩ | ⟨_, _, ev, code, hb, h⟩ | ⟨_, _, ev, hb, h⟩
    all_goals
      rw [h] at he
      try rw [hb] at hbody
      simp only [List.cons_append, List.mem_cons, List.mem_append, List.mem_singleton,
        List.mem_nil_iff, or_false] at he
    · rcases he with he
      subst he; exact hpoll _
    · rcases he with he | he | he
      · subst he; exact hpoll _
      · exact ⟨(hbody e he).1, (hbody e he).2.2⟩
      · have hn := loopBody_next w (pool w bpl N) (fc + 1) st st' (by rw [hb])
        exact ih (fc + 1) st' (by rw [hn.1, hst]) e he
    · rcases he with he | he
      · subst he; exact hpoll _
      · exact ⟨(hbody e he).1, (hbody e he).2.2⟩
    · rcases he with he | he
      · subst he; exact hpoll _
      · exact ⟨(hbody e he).1, (hbody e he).2.2⟩

/-- Six units of fuel are enough: the model of the loop never runs out. -/
theorem captureLoop_fuel (w : World) (buffers : List buffer) (fuel fc : Nat) (st : stream)
    (h : 6 ≤ fuel + fc) (h1 : 1 ≤ fuel) : (captureLoop w buffers fuel fc st).2 ≠ .fuel := by
  induction fuel generalizing fc st with
  | zero => omega
  | succ fuel ih =>
    rcases captureLoop_cases w buffers fuel fc st with
      ⟨_, h'⟩ | ⟨_, _, h'⟩ | ⟨_, _, ev, st', hb, h'⟩ | ⟨_, _, ev, code, hb, h'⟩
      | ⟨_, _, ev, hb, h'⟩
    all_goals rw [h']
    · simp
    · simp
    · exact ih (fc + 1) st' (by omega) (by omega)
    · simp
    · simp

/-- When the loop ends through its condition, either a readiness wait failed in one of
the iterations 1 to 5 or all five frames were taken and `frame_counter` is 6. -/
theorem captureLoop_condition (w : World) (buffers : List buffer) (fuel fc0 : Nat)
    (st st' : stream) (fc : Nat) (h0 : fc0 ≤ 5)
    (h : (captureLoop w buffers fuel fc0 st).2 = .condition fc st') :
    (fc0 < fc ∧ fc ≤ 5 ∧ w.poll fc ≤ 0) ∨ fc = 6 := by
  induction fuel generalizing fc0 st with
  | zero => simp [captureLoop_zero] at h
  | succ fuel ih =>
    rcases captureLoop_cases w buffers fuel fc0 st with
      ⟨hlt, h'⟩ | ⟨hlt, hp, h'⟩ | ⟨hlt, _, ev, st1, hb, h'⟩ | ⟨_, _, ev, code, hb, h'⟩
      | ⟨_, _, ev, hb, h'⟩
    all_goals
      rw [h'] at h
    · simp only [LoopExit.condition.injEq] at h
      right; omega
    · simp only [LoopExit.condition.injEq] at h
      left
      rw [← h.1]
      exact ⟨by omega, by omega, by omega⟩
    · rcases ih (fc0 + 1) st1 (by omega) h with ⟨h1, h2, h3⟩ | h1
      · left; exact ⟨by omega, h2, h3⟩
      · right; exact h1
    · simp at h
    · simp at h

/-- When the loop ends by a `return`, the code is `EXIT_FAILURE` and the last call was
a failed `VIDIOC_DQBUF` or a rejected resubmission. -/
theorem captureLoop_returned_cause (w : World) (buffers : List buffer) (fuel fc : Nat)
    (st : stream) (code : Int) (h : (captureLoop w buffers fuel fc st).2 = .returned code) :
    code = EXIT_FAILURE
    ∧ ((captureLoop w buffers fuel fc st).1.getLast? = some (.dqbuf none)
      ∨ ∃ i fd, (captureLoop w buffers fuel fc st).1.getLast? = some (.qbuf i fd false)) := by
  induction fuel generalizing fc st with
  | zero => simp [captureLoop_zero] at h
  | succ fuel ih =>
    rcases captureLoop_cases w buffers fuel fc st with
      ⟨hlt, h'⟩ | ⟨hlt, hp, h'⟩ | ⟨hlt, _, ev, st1, hb, h'⟩ | ⟨_, _, ev, code', hb, h'⟩
      | ⟨_, _, ev, hb, h'⟩
    all_goals
      rw [h'] at h ⊢
    · simp at h
    · simp at h
    · have hrec := ih (fc + 1) st1 h
      refine ⟨hrec.1, ?_⟩
      have hne : (captureLoop w buffers fuel (fc + 1) st1).1 ≠ [] := by
        intro hnil
        rcases hrec.2 with h2 | ⟨i, fd, h2⟩ <;> simp [hnil] at h2
      have hlast : ∀ (a b : List Event), b ≠ [] → (a ++ b).getLast? = b.getLast? := by
        intro a b hb'
        rw [List.getLast?_append]
        cases hbl : b.getLast? with
        | none => simp [List.getLast?_eq_none_iff] at hbl; exact absurd hbl hb'
        | some x => rfl
      simp only []
      rw [hlast _ _ hne]
      exact hrec.2
    · simp only [LoopExit.returned.injEq] at h
      subst h
      have hbody := loopBody_returned w buffers (fc + 1) st code' (by rw [hb])
      rw [hb] at hbody
      refine ⟨hbody.1, ?_⟩
      have hne : ev ≠ [] := by
        intro hnil
        rcases hbody.2 with h2 | ⟨i, fd, h2⟩ <;> simp [hnil] at h2
      have hcons : ∀ (x : Event) (l : List Event), l ≠ [] → (x :: l).getLast? = l.getLast? := by
        intro x l hl
        cases l with
        | nil => exact absurd rfl hl
        | cons y ys => simp [List.getLast?_cons_cons]
      simp only []
      rw [hcons _ _ hne]
      exact hbody.2
    · simp at h

theorem getLast?_append_right (a b : List Event) (hb : b ≠ []) :
    (a ++ b).getLast? = b.getLast? := by
  rw [List.getLast?_append]
  cases hbl : b.getLast? with
  | none => simp [List.getLast?_eq_none_iff] at hbl; exact absurd hbl hb
  | some x => rfl

/-- A failed readiness wait ends the loop through its condition, as its last call. -/
theorem captureLoop_wait (w : World) (bpl N fuel fc : Nat) (st : stream)
    (hst : st.buffers = pool w bpl N) (r : Int) (hr : r ≤ 0)
    (h : Event.poll r ∈ (captureLoop w (pool w bpl N) fuel fc st).1) :
    (∃ fc' st', (captureLoop w (pool w bpl N) fuel fc st).2 = .condition fc' st')
    ∧ (captureLoop w (pool w bpl N) fuel fc st).1.getLast? = some (.poll r) := by
  induction fuel generalizing fc st with
  | zero => simp [captureLoop_zero] at h
  | succ fuel ih =>
    have hbody := mem_loopBody w bpl N (fc + 1) st hst
    rcases captureLoop_cases w (pool w bpl N) fuel fc st with
      ⟨hlt, h'⟩ | ⟨hlt, hp, h'⟩ | ⟨hlt, hp, ev, st1, hb, h'⟩ | ⟨_, hp, ev, code', hb, h'⟩
      | ⟨_, hp, ev, hb, h'⟩
    all_goals
      rw [h'] at h ⊢
      try rw [hb] at hbody
      simp only [List.cons_append, List.mem_cons, List.mem_append, List.mem_singleton,
        List.mem_nil_iff, or_false, Event.poll.injEq] at h
    · exact ⟨⟨_, _, rfl⟩, by rw [h]; rfl⟩
    · rcases h with h | h | h
      · omega
      · have := (hbody _ h).2.1
        simp [isPoll] at this
      · have hn := loopBody_next w (pool w bpl N) (fc + 1) st st1 (by rw [hb])
        have hrec := ih (fc + 1) st1 (by rw [hn.1, hst]) h
        refine ⟨hrec.1, ?_⟩
        simp only []
        rw [getLast?_append_right _ _ (List.ne_nil_of_mem h)]
        exact hrec.2
    · rcases h with h | h
      · omega
      · have := (hbody _ h).2.1
        simp [isPoll] at this
    · rcases h with h | h
      · omega
      · have := (hbody _ h).2.1
        simp [isPoll] at this

theorem mem_stopStreaming_streamoff (w : World) (fc : Nat) :
    Event.streamoff w.streamoff ∈ stopStreaming w fc := by
  simp [stopStreaming]

theorem cleanup_pool (w : World) (bpl N : Nat) :
    cleanup true (pool w bpl N)
      = .gbm_device_destroy :: (List.range N).map Event.gbm_bo_destroy
          ++ [.gbm_device_destroy, .close_gbm_fd] := by
  have h : ∀ l : List Nat, List.filterMap (fun x => some (Event.gbm_bo_destroy x)) l
      = List.map Event.gbm_bo_destroy l := by
    intro l
    induction l with
    | nil => rfl
    | cons x xs ih => simp [List.filterMap_cons, ih]
  simp [cleanup, pool, List.filterMap_map, Function.comp_def, h]

/-- In a pass through the body, a refused call is the last call of the pass and the
pass ends by `return EXIT_FAILURE`. -/
theorem loopBody_failed (w : World) (buffers : List buffer) (fc : Nat) (st : stream)
    (e : Event) (he : e ∈ (loopBody w buffers fc st).1) (hf : isFailedCall e = true) :
    (loopBody w buffers fc st).2 = .returned EXIT_FAILURE
    ∧ (loopBody w buffers fc st).1.getLast? = some e := by
  have hdump : ∀ idx, ∀ x ∈ dumpFrame w fc idx, isFailedCall x = false := by
    intro idx x hx
    rcases mem_dumpFrame w fc idx x hx with h | h | h <;> subst h <;> rfl
  rcases loopBody_cases w buffers fc st with
    ⟨_, hb⟩ | ⟨idx, _, _, hb⟩ | ⟨idx, _, _, _, hb⟩ | ⟨idx, _, _, _, _, hb⟩
    | ⟨idx, b, _, _, _, _, _, hb⟩ | ⟨idx, b, _, _, _, _, _, hb⟩
  all_goals
    rw [hb] at he ⊢
    simp only [List.cons_append, List.mem_cons, List.mem_append, List.mem_singleton,
      List.mem_nil_iff, or_false] at he
  · subst he; exact ⟨rfl, rfl⟩
  · subst he; simp [isFailedCall] at hf
  · rcases he with he | he
    · subst he; simp [isFailedCall] at hf
    · rw [hdump idx e he] at hf; cases hf
  · rcases he with he | he
    · subst he; simp [isFailedCall] at hf
    · rw [hdump idx e he] at hf; cases hf
  · rcases he with he | he | he
    · subst he; simp [isFailedCall] at hf
    · rw [hdump idx e he] at hf; cases hf
    · subst he; simp [isFailedCall] at hf
  · rcases he with he | he | he
    · subst he; simp [isFailedCall] at hf
    · rw [hdump idx e he] at hf; cases hf
    · subst he
      refine ⟨rfl, ?_⟩
      simp only []
      rw [List.getLast?_append]
      rfl

/-- In the capture loop, a refused call is the last call of the loop and the loop
ends by `return EXIT_FAILURE`. -/
theorem captureLoop_failed (w : World) (buffers : List buffer) (fuel fc : Nat) (st : stream)
    (e : Event) (he : e ∈ (captureLoop w buffers fuel fc st).1) (hf : isFailedCall e = true) :
    (captureLoop w buffers fuel fc st).2 = .returned EXIT_FAILURE
    ∧ (captureLoop w buffers fuel fc st).1.getLast? = some e := by
  induction fuel generalizing fc st with
  | zero => simp [captureLoop_zero] at he
  | succ fuel ih =>
    have hbody := loopBody_failed w buffers (fc + 1) st e
    have hcons : ∀ (x : Event) (l : List Event), l ≠ [] → (x :: l).getLast? = l.getLast? := by
      intro x l hl
      cases l with
      | nil => exact absurd rfl hl
      | cons y ys => simp [List.getLast?_cons_cons]
    rcases captureLoop_cases w buffers fuel fc st with
      ⟨_, h⟩ | ⟨_, _, h⟩ | ⟨_, _, ev, st', hb, h⟩ | ⟨_, _, ev, code, hb, h⟩ | ⟨_, _, ev, hb, h⟩
    all_goals
      rw [h] at he ⊢
      try rw [hb] at hbody
      simp only [List.cons_append, List.mem_cons, List.mem_append, List.mem_singleton,
        List.mem_nil_iff, or_false] at he
    · subst he; simp [isFailedCall] at hf
    · rcases he with he | he | he
      · subst he; simp [isFailedCall] at hf
      · have := (hbody he hf).1
        cases this
      · have hrec := ih (fc + 1) st' he
        refine ⟨hrec.1, ?_⟩
        simp only []
        rw [getLast?_append_right _ _ (List.ne_nil_of_mem he)]
        exact hrec.2
    · rcases he with he | he
      · subst he; simp [isFailedCall] at hf
      · obtain ⟨h1, h2⟩ := hbody he hf
        simp only [BodyExit.returned.injEq] at h1
        subst h1
        refine ⟨rfl, ?_⟩
        simp only []
        rw [hcons _ _ (List.ne_nil_of_mem he)]
        exact h2
    · rcases he with he | he
      · subst he; simp [isFailedCall] at hf
      · have := (hbody he hf).1
        cases this

/-! ## Mappings, live objects and the failing allocation -/

theorem main_calls (w : World) :
    ∀ e ∈ (main w).trace,
      isSetupCall e = true ∨ e = .streamon true ∨ isCaptureCall e = true
        ∨ isTeardownCall e = true := by
  intro e he
  rcases main_run w with ⟨hc, ht, _, _, hs, _⟩ | ⟨N, bpl, _, _, _, hrun⟩
  · simp only [Run.trace, hc, ht, List.append_nil] at he
    exact Or.inl (hs e he)
  · rw [hrun] at he
    simp only [Run.trace, List.cons_append, List.mem_cons, List.mem_append,
      List.mem_singleton] at he
    rcases he with he | he | ((he | he | he) | he) | he
    · subst he; exact Or.inl rfl
    · subst he; exact Or.inl rfl
    · obtain ⟨j, _, _, hj⟩ := mem_allocOk w N 0 e he
      rcases hj with hj | hj | hj <;> subst hj <;> exact Or.inl rfl
    · exact Or.inr (Or.inl he)
    · simp at he
    · exact Or.inr (Or.inr (Or.inl
        (mem_captureLoop w bpl N 6 0 (streamInit w (pool w bpl N)) rfl e he).1))
    · exact Or.inr (Or.inr (Or.inr (mem_teardownOf _ _ _ e he)))

theorem mapped_stays (tr : List Event) (m : Nat → Bool) (i : Nat)
    (hno : ∀ e ∈ tr, isUnmap e = false)
    (h : m i = true ∨ Event.gbm_bo_map i true ∈ tr) : replay mapStep m tr i = true := by
  induction tr generalizing m with
  | nil => simpa using h
  | cons e es ih =>
    simp only [replay_cons]
    apply ih _ (fun e' he' => hno e' (List.mem_cons_of_mem _ he'))
    have he := hno e (List.mem_cons_self _ _)
    rcases h with h | h
    · left
      cases e <;> simp [isUnmap] at he <;> try exact h
      rename_i j ok
      cases ok
      · exact h
      · simp only [mapStep]; split_ifs <;> simp [h]
    · simp only [List.mem_cons] at h
      rcases h with h | h
      · left; subst h; simp [mapStep]
      · right; exact h

theorem dumpFrame_readsMapped (w : World) (fc idx : Nat) (prev : Option Event) :
    along lastStep readsMapped prev (dumpFrame w fc idx) = true := by
  unfold dumpFrame
  split_ifs <;> simp [readsMapped, lastStep]

theorem loopBody_readsMapped (w : World) (buffers : List buffer) (fc : Nat) (st : stream)
    (prev : Option Event) :
    along lastStep readsMapped prev (loopBody w buffers fc st).1 = true := by
  rcases loopBody_cases w buffers fc st with
    ⟨_, hb⟩ | ⟨idx, _, _, hb⟩ | ⟨idx, _, _, _, hb⟩ | ⟨idx, _, _, _, _, hb⟩
    | ⟨idx, b, _, _, _, _, _, hb⟩ | ⟨idx, b, _, _, _, _, _, hb⟩
  all_goals
    rw [hb]
    simp only [List.cons_append, along_cons, along_nil, along_append, Bool.and_eq_true,
      dumpFrame_readsMapped, readsMapped, and_self, Bool.and_true]

theorem captureLoop_readsMapped (w : World) (buffers : List buffer) (fuel fc : Nat)
    (st : stream) (prev : Option Event) :
    along lastStep readsMapped prev (captureLoop w buffers fuel fc st).1 = true := by
  induction fuel generalizing fc st prev with
  | zero => simp [captureLoop_zero]
  | succ fuel ih =>
    rcases captureLoop_cases w buffers fuel fc st with
      ⟨_, h⟩ | ⟨_, _, h⟩ | ⟨_, _, ev, st', hb, h⟩ | ⟨_, _, ev, code, hb, h⟩ | ⟨_, _, ev, hb, h⟩
    all_goals
      rw [h]
      have hbody := loopBody_readsMapped w buffers (fc + 1) st
      try rw [hb] at hbody
      simp only [List.cons_append, along_cons, along_nil, along_append, Bool.and_eq_true,
        readsMapped, hbody, ih, and_self, Bool.and_true]

/-- A pass through the body entered right after the wait: every successful mapping
whose file opens is directly followed by the write, and no write is owed at the
end. -/
theorem loopBody_reads (w : World) (buffers : List buffer) (k : Nat) (st : stream)
    (r : Int) :
    along readStep (readCheck w) (k, some (.poll r)) (loopBody w buffers k st).1 = true
    ∧ readSettled w (replay readStep (k, some (.poll r)) (loopBody w buffers k st).1) = true
    ∧ (replay readStep (k, some (.poll r)) (loopBody w buffers k st).1).1 = k := by
  rcases loopBody_cases w buffers k st with
    ⟨_, hb⟩ | ⟨idx, _, _, hb⟩ | ⟨idx, _, _, _, hb⟩ | ⟨idx, _, _, _, _, hb⟩
    | ⟨idx, b, _, _, _, _, _, hb⟩ | ⟨idx, b, _, _, _, _, _, hb⟩
  all_goals
    rw [hb]
    cases hm : w.gbm_bo_map k <;> cases hf : w.fopen k <;>
      simp [dumpFrame, readCheck, readStep, readSettled, isFwrite, isPoll, hm, hf]

theorem captureLoop_reads (w : World) (buffers : List buffer) (fuel fc : Nat) (st : stream)
    (prev : Option Event) (hs : readSettled w (fc, prev) = true) :
    along readStep (readCheck w) (fc, prev) (captureLoop w buffers fuel fc st).1 = true
    ∧ readSettled w (replay readStep (fc, prev) (captureLoop w buffers fuel fc st).1) = true := by
  induction fuel generalizing fc st prev with
  | zero => simpa [captureLoop_zero] using hs
  | succ fuel ih =>
    have hpoll : ∀ r, readCheck w (fc, prev) (.poll r) = true := by
      intro r
      cases prev with
      | none => simp [readCheck, isFwrite]
      | some p =>
        cases p <;> simp [readCheck, isFwrite]
        rename_i i ok
        cases ok
        · simp [isFwrite]
        · simp only [readSettled, Bool.not_eq_true'] at hs
          simp [hs, isFwrite]
    have hstep : ∀ r, readStep (fc, prev) (.poll r) = (fc + 1, some (.poll r)) := by
      intro r; simp [readStep, isPoll]
    have hbody := loopBody_reads w buffers (fc + 1) st (w.poll (fc + 1))
    rcases captureLoop_cases w buffers fuel fc st with
      ⟨_, h⟩ | ⟨_, _, h⟩ | ⟨_, _, ev, st', hb, h⟩ | ⟨_, _, ev, code, hb, h⟩ | ⟨_, _, ev, hb, h⟩
    all_goals
      rw [h]
      try rw [hb] at hbody
    · simpa using hs
    · simp [hpoll, hstep, readSettled]
    · obtain ⟨h1, h2, h3⟩ := hbody
      simp only [] at h1 h2 h3
      have hst : replay readStep (fc + 1, some (.poll (w.poll (fc + 1)))) ev
          = (fc + 1, (replay readStep (fc + 1, some (.poll (w.poll (fc + 1)))) ev).2) :=
        Prod.ext h3 rfl
      rw [hst] at h2
      have hrec := ih (fc + 1) st' _ h2
      simp only [List.cons_append, along_cons, along_append, replay_cons, replay_append,
        Bool.and_eq_true, hpoll, hstep, h1, true_and]
      rw [hst]
      exact hrec
    · simp only [along_cons, replay_cons, Bool.and_eq_true, hpoll, hstep, true_and]
      exact ⟨hbody.1, hbody.2.1⟩
    · simp only [along_cons, replay_cons, Bool.and_eq_true, hpoll, hstep, true_and]
      exact ⟨hbody.1, hbody.2.1⟩

theorem replay_readStep_fst (s : Nat × Option Event) (tr : List Event) :
    (replay readStep s tr).1 = s.1 + (tr.filter isPoll).length := by
  induction tr generalizing s with
  | nil => simp
  | cons e es ih =>
    simp only [replay_cons, ih, readStep, List.filter_cons]
    cases isPoll e <;> simp
    omega

/-- From the check along a trace to its reading at one successful mapping. -/
theorem read_after_map (w : World) (tr pre post : List Event) (i : Nat)
    (hal : along readStep (readCheck w) (0, none) tr = true)
    (hend : readSettled w (replay readStep (0, none) tr) = true)
    (htr : tr = pre ++ .gbm_bo_map i true :: post)
    (hf : w.fopen (pre.filter isPoll).length = true) :
    post.head? = some (.fwrite i) := by
  subst htr
  have hk := replay_readStep_fst (0, none) pre
  simp only [Nat.zero_add] at hk
  have hst : readStep (replay readStep (0, none) pre) (.gbm_bo_map i true)
      = ((pre.filter isPoll).length, some (.gbm_bo_map i true)) := by
    simp [readStep, isPoll, hk]
  cases post with
  | nil =>
    simp only [replay_append, replay_cons, replay_nil, hst, readSettled, hf] at hend
    cases hend
  | cons e es =>
    simp only [along_append, along_cons, Bool.and_eq_true, hst] at hal
    have := hal.2.2.1
    simp only [readCheck, hf, if_true, beq_iff_eq] at this
    simp [this]

/-! ## The run in which every call succeeds -/

theorem loopBody_first (w : World) (bpl N k idx : Nat) (st : stream) (hN : N ≤ 2 ^ 31)
    (hdq : w.dqbuf k = some idx) (hidx : idx < N)
    (hcur : st.current_buffer = -1) :
    loopBody w (pool w bpl N) k st
      = (.dqbuf (some idx) :: dumpFrame w k idx,
          .next { st with current_buffer := (idx : Int) }) := by
  rcases loopBody_cases w (pool w bpl N) k st with
    ⟨hd, _⟩ | ⟨idx', hd, hge, _⟩ | ⟨idx', hd, _, _, hb⟩ | ⟨idx', _, _, hc, _⟩
    | ⟨idx', b, _, _, hc, _⟩ | ⟨idx', b, _, _, hc, _⟩
  · rw [hdq] at hd; cases hd
  · rw [hdq] at hd; cases hd
    rw [pool_length] at hge; omega
  · rw [hdq] at hd; cases hd
    rw [hb, toInt32_of_lt idx (by omega)]
  · exact absurd hcur hc
  · exact absurd hcur hc
  · exact absurd hcur hc

theorem loopBody_later (w : World) (bpl N k idx c : Nat) (st : stream) (hN : N ≤ 2 ^ 31)
    (hst : st.buffers = pool w bpl N) (hdq : w.dqbuf k = some idx) (hidx : idx < N)
    (hcur : st.current_buffer = (c : Int)) (hc : c < N) (hre : w.requeue k = true) :
    loopBody w (pool w bpl N) k st
      = (.dqbuf (some idx) :: dumpFrame w k idx ++ [.qbuf c (w.gbm_bo_get_fd c) true],
          .next { st with current_buffer := (idx : Int) }) := by
  have hv : vectorAt st.buffers st.current_buffer
      = some { bo_handle := some c, dbuf_fd := w.gbm_bo_get_fd c, length := bpl } := by
    unfold vectorAt
    rw [hcur, if_neg (by omega), Int.toNat_ofNat, hst, pool_getElem? w bpl N c hc]
  rcases loopBody_cases w (pool w bpl N) k st with
    ⟨hd, _⟩ | ⟨idx', hd, hge, _⟩ | ⟨idx', hd, _, hc', _⟩ | ⟨idx', _, _, _, hv', _⟩
    | ⟨idx', b, hd, _, _, hv', _, hb⟩ | ⟨idx', b, _, _, _, _, hre', _⟩
  · rw [hdq] at hd; cases hd
  · rw [hdq] at hd; cases hd
    rw [pool_length] at hge; omega
  · rw [hcur] at hc'; omega
  · rw [hv] at hv'; cases hv'
  · rw [hdq] at hd; cases hd
    rw [hv] at hv'; cases hv'
    rw [hb, toInt32_of_lt idx (by omega), hcur, Int.toNat_ofNat]
  · rw [hre] at hre'; cases hre'

theorem dequeued_dumpFrame (w : World) (k idx : Nat) : dequeued (dumpFrame w k idx) = [] := by
  unfold dumpFrame dequeued
  split_ifs <;> simp

theorem submitted_dumpFrame (w : World) (k idx : Nat) : submitted (dumpFrame w k idx) = [] := by
  unfold dumpFrame submitted
  split_ifs <;> simp

theorem dequeued_append (a b : List Event) : dequeued (a ++ b) = dequeued a ++ dequeued b := by
  simp [dequeued, List.filterMap_append]

theorem submitted_append (a b : List Event) :
    submitted (a ++ b) = submitted a ++ submitted b := by
  simp [submitted, List.filterMap_append]

theorem dequeued_iteration (w : World) (k idx : Nat) (prev : Option Nat) :
    dequeued (iteration w k idx prev) = [idx] := by
  have h : ∀ l : List Event, dequeued (.poll (w.poll k) :: .dqbuf (some idx) :: l)
      = idx :: dequeued l := by
    intro l; simp [dequeued, List.filterMap_cons]
  unfold iteration
  rw [List.cons_append, List.cons_append, h, dequeued_append, dequeued_dumpFrame]
  cases prev <;> simp [dequeued]

theorem submitted_iteration (w : World) (k idx : Nat) (prev : Option Nat) :
    submitted (iteration w k idx prev) = prev.toList := by
  have h : ∀ l : List Event, submitted (.poll (w.poll k) :: .dqbuf (some idx) :: l)
      = submitted l := by
    intro l; simp [submitted, List.filterMap_cons]
  unfold iteration
  rw [List.cons_append, List.cons_append, h, submitted_append, submitted_dumpFrame]
  cases prev <;> simp [submitted]

/-- The capture loop when the five waits, dequeues and the four resubmissions
succeed. -/
theorem captureLoop_all_ok (w : World) (bpl N : Nat) (hN : N ≤ 2 ^ 31)
    (hpoll : ∀ k, 1 ≤ k → k ≤ 5 → 0 < w.poll k)
    (i : Nat → Nat) (hdq : ∀ k, 1 ≤ k → k ≤ 5 → w.dqbuf k = some (i k) ∧ i k < N)
    (hre : ∀ k, 2 ≤ k → k ≤ 5 → w.requeue k = true) :
    captureLoop w (pool w bpl N) 6 0 (streamInit w (pool w bpl N))
      = (iteration w 1 (i 1) none ++ iteration w 2 (i 2) (some (i 1))
          ++ iteration w 3 (i 3) (some (i 2)) ++ iteration w 4 (i 4) (some (i 3))
          ++ iteration w 5 (i 5) (some (i 4)),
        .condition 6 { streamInit w (pool w bpl N) with current_buffer := (i 5 : Int) }) := by
  have b1 := loopBody_first w bpl N 1 (i 1) (streamInit w (pool w bpl N)) hN
    (hdq 1 (by omega) (by omega)).1 (hdq 1 (by omega) (by omega)).2 rfl
  have b2 := loopBody_later w bpl N 2 (i 2) (i 1)
    { streamInit w (pool w bpl N) with current_buffer := (i 1 : Int) } hN rfl
    (hdq 2 (by omega) (by omega)).1 (hdq 2 (by omega) (by omega)).2 rfl
    (hdq 1 (by omega) (by omega)).2 (hre 2 (by omega) (by omega))
  have b3 := loopBody_later w bpl N 3 (i 3) (i 2)
    { streamInit w (pool w bpl N) with current_buffer := (i 2 : Int) } hN rfl
    (hdq 3 (by omega) (by omega)).1 (hdq 3 (by omega) (by omega)).2 rfl
    (hdq 2 (by omega) (by omega)).2 (hre 3 (by omega) (by omega))
  have b4 := loopBody_later w bpl N 4 (i 4) (i 3)
    { streamInit w (pool w bpl N) with current_buffer := (i 3 : Int) } hN rfl
    (hdq 4 (by omega) (by omega)).1 (hdq 4 (by omega) (by omega)).2 rfl
    (hdq 3 (by omega) (by omega)).2 (hre 4 (by omega) (by omega))
  have b5 := loopBody_later w bpl N 5 (i 5) (i 4)
    { streamInit w (pool w bpl N) with current_buffer := (i 4 : Int) } hN rfl
    (hdq 5 (by omega) (by omega)).1 (hdq 5 (by omega) (by omega)).2 rfl
    (hdq 4 (by omega) (by omega)).2 (hre 5 (by omega) (by omega))
  rw [captureLoop_next w _ 5 0 _ (by omega) (hpoll 1 (by omega) (by omega)) _ _ b1,
    captureLoop_next w _ 4 1 _ (by omega) (hpoll 2 (by omega) (by omega)) _ _ b2,
    captureLoop_next w _ 3 2 _ (by omega) (hpoll 3 (by omega) (by omega)) _ _ b3,
    captureLoop_next w _ 2 3 _ (by omega) (hpoll 4 (by omega) (by omega)) _ _ b4,
    captureLoop_next w _ 1 4 _ (by omega) (hpoll 5 (by omega) (by omega)) _ _ b5,
    captureLoop_done w _ 0 5 _ (by omega)]
  simp [iteration, streamInit]

/-! ## The exact number of held slots -/

theorem countP_eq_one (N a : Nat) (ha : a < N) :
    (List.range N).countP (fun i => i == a) = 1 := by
  have h := List.count_eq_one_of_mem (List.nodup_range N) (List.mem_range.mpr ha)
  simpa [List.count] using h

theorem held_eq_one (N : Nat) (q : Queue) (a : Nat) (ha : a < N)
    (h : ∀ i, i < N → (q i = .HELD ↔ i = a)) : held N q = 1 := by
  unfold held
  rw [← countP_eq_one N a ha]
  apply List.countP_congr
  intro x hx
  have := h x (List.mem_range.mp hx)
  simp [this]

theorem held_eq_two (N : Nat) (q : Queue) (a b : Nat) (ha : a < N) (hb : b < N)
    (hab : a ≠ b) (h : ∀ i, i < N → (q i = .HELD ↔ i = a ∨ i = b)) : held N q = 2 := by
  unfold held
  have h1 : (List.range N).countP (fun i => q i == .HELD)
      = (List.range N).countP (fun i => i == a || i == b) := by
    apply List.countP_congr
    intro x hx
    have := h x (List.mem_range.mp hx)
    simp [this]
  have h2 : ∀ l : List Nat, l.countP (fun i => i == a || i == b)
      = l.countP (fun i => i == a) + l.countP (fun i => i == b) := by
    intro l
    induction l with
    | nil => simp
    | cons x xs ih =>
      simp only [List.countP_cons, ih]
      by_cases hxa : x = a
      · have hxb : x ≠ b := fun hxb => hab (hxa.symm.trans hxb)
        simp [hxa, hxb]
        have : ¬ a = b := hab
        simp [this]
        omega
      · by_cases hxb : x = b
        · simp [hxa, hxb]
          have : ¬ b = a := fun h' => hab h'.symm
          simp [this]
          omega
        · simp [hxa, hxb]
  rw [h1, h2, countP_eq_one N a ha, countP_eq_one N b hb]

theorem held_qOf_none (N : Nat) : held N (qOf N (-1)) = 0 := by
  apply held_eq_zero
  intro i hi
  simp only [qOf, hi, if_true]
  have : ¬ ((i : Int) = -1) := by omega
  simp [this]

theorem held_qOf_some (N c : Nat) (hc : c < N) : held N (qOf N (c : Int)) = 1 := by
  apply held_eq_one N _ c hc
  intro i hi
  simp only [qOf, hi, if_true]
  split_ifs with h
  · simp; omega
  · simp; omega

theorem held_qOf_set_two (N c idx : Nat) (hc : c < N) (hidx : idx < N) (hne : idx ≠ c) :
    held N ((qOf N (c : Int)).set idx .HELD) = 2 := by
  apply held_eq_two N _ c idx hc hidx (Ne.symm hne)
  intro i hi
  simp only [Queue.set, qOf, hi, if_true]
  split_ifs with h1 h2
  · simp [h1]
  · simp; left; omega
  · simp; constructor <;> omega

theorem exact_of_held (N : Nat) (q : Queue) (h : Nat) (hh : held N q = h) :
    (held N q == h && available N q == N - h) = true := by
  have := held_add_available N q
  simp only [Bool.and_eq_true, beq_iff_eq]
  exact ⟨hh, by omega⟩

theorem replay_heldStep (s : Queue × Nat) (tr : List Event) :
    replay heldStep s tr
      = (replay Queue.step s.1 tr, s.2 + (dequeued tr).length) := by
  induction tr generalizing s with
  | nil => simp [dequeued]
  | cons e es ih =>
    simp only [replay_cons, ih, heldStep]
    have hd : dequeued (e :: es) = dequeued [e] ++ dequeued es := by
      rw [← dequeued_append]; rfl
    rw [hd]
    cases e <;> simp [isDequeue, dequeued]
    rename_i o
    cases o <;> simp
    omega

theorem along_split {σ : Type} (step : σ → Event → σ) (P : σ → Event → Bool) (s : σ)
    (pre post : List Event) (e : Event)
    (h : along step P s (pre ++ e :: post) = true) : P (replay step s pre) e = true := by
  simp only [along_append, along_cons, Bool.and_eq_true] at h
  exact h.2.1

theorem loopBody_dequeued (w : World) (buffers : List buffer) (fc : Nat) (st st' : stream)
    (h : (loopBody w buffers fc st).2 = .next st') :
    (dequeued (loopBody w buffers fc st).1).length = 1 := by
  have hdq : ∀ l : List Event, ∀ idx, dequeued (.dqbuf (some idx) :: l) = idx :: dequeued l := by
    intro l idx; simp [dequeued, List.filterMap_cons]
  rcases loopBody_cases w buffers fc st with
    ⟨_, hb⟩ | ⟨idx, _, _, hb⟩ | ⟨idx, _, _, _, hb⟩ | ⟨idx, _, _, _, _, hb⟩
    | ⟨idx, b, _, _, _, _, _, hb⟩ | ⟨idx, b, _, _, _, _, _, hb⟩
  all_goals
    rw [hb] at h ⊢
    cases h
  · simp only []
    rw [hdq, dequeued_dumpFrame]
    rfl
  · simp only []
    rw [List.cons_append, hdq, dequeued_append, dequeued_dumpFrame]
    rfl

/-- A pass through the body, counted exactly. -/
theorem loopBody_exact (w : World) (buffers : List buffer) (fc : Nat) (st : stream)
    (N d : Nat) (hN : N ≤ 2 ^ 31) (hlen : buffers.length = N) (hst : st.buffers = buffers)
    (hcur : CurAfter N st.current_buffer d)
    (hdev : along Queue.step dequeuesQueued (qOf N st.current_buffer)
      (loopBody w buffers fc st).1 = true) :
    along heldStep (exactCheck N) (qOf N st.current_buffer, d)
        (loopBody w buffers fc st).1 = true
    ∧ ∀ st', (loopBody w buffers fc st).2 = .next st' →
        st'.buffers = buffers ∧ CurAfter N st'.current_buffer (d + 1)
        ∧ replay Queue.step (qOf N st.current_buffer) (loopBody w buffers fc st).1
            = qOf N st'.current_buffer
        ∧ (dequeued (loopBody w buffers fc st).1).length = 1 := by
  have hq0 : held N (qOf N st.current_buffer) = min d 1 := by
    rcases hcur with ⟨h1, h2⟩ | ⟨h0, h1, h2⟩
    · rw [h1, h2]; exact held_qOf_none N
    · obtain ⟨c, hcc⟩ := Int.eq_ofNat_of_zero_le h0
      rw [hcc, held_qOf_some N c (by omega)]
      omega
  have hdump : ∀ idx h, held N ((qOf N st.current_buffer).set idx .HELD) = h →
      min (d + 1) 2 = h →
      along heldStep (exactCheck N) ((qOf N st.current_buffer).set idx .HELD, d + 1)
        (dumpFrame w fc idx) = true := by
    intro idx h hh hm
    apply along_same
    intro e he
    rcases mem_dumpFrame w fc idx e he with h' | h' | h' <;> subst h' <;>
      exact ⟨by simp [heldStep, Queue.step, isDequeue],
        by simp only [exactCheck, expectedHeld, hm]; exact exact_of_held N _ h hh⟩
  have hdumpq : ∀ idx, replay heldStep ((qOf N st.current_buffer).set idx .HELD, d + 1)
      (dumpFrame w fc idx) = ((qOf N st.current_buffer).set idx .HELD, d + 1) := by
    intro idx
    apply replay_same
    intro e he
    rcases mem_dumpFrame w fc idx e he with h' | h' | h' <;> subst h' <;>
      simp [heldStep, Queue.step, isDequeue]
  have hghost := loopBody_ghost w buffers fc st N hN hlen hst
    (by rcases hcur with ⟨h1, _⟩ | ⟨h0, h1, _⟩
        · exact Or.inl h1
        · exact Or.inr ⟨h0, h1⟩) hdev
  refine ⟨?_, ?_⟩
  swap
  · intro st' h
    obtain ⟨h1, _, h3⟩ := hghost.2.2 st' h
    obtain ⟨_, idx, _, hlt, hcur'⟩ := loopBody_next w buffers fc st st' h
    refine ⟨h1, ?_, h3, loopBody_dequeued w buffers fc st st' h⟩
    rw [hcur', toInt32_of_lt idx (by omega)]
    exact Or.inr ⟨by omega, by omega, by omega⟩
  rcases loopBody_cases w buffers fc st with
    ⟨_, hb⟩ | ⟨idx, _, hge, hb⟩ | ⟨idx, _, hlt, hc, hb⟩ | ⟨idx, _, hlt, hc, hv, hb⟩
    | ⟨idx, b, _, hlt, hc, hv, _, hb⟩ | ⟨idx, b, _, hlt, hc, hv, _, hb⟩
  · rw [hb]
    simp only [along_cons, along_nil, Bool.and_true, exactCheck, expectedHeld]
    exact exact_of_held N _ _ hq0
  · rw [hb] at hdev
    simp only [along_cons, along_nil, dequeuesQueued, Bool.and_true, beq_iff_eq] at hdev
    simp only [qOf] at hdev
    split_ifs at hdev
    omega
  · rw [hb]
    have hd0 : d = 0 := by
      rcases hcur with ⟨_, h2⟩ | ⟨h0, _, _⟩
      · exact h2
      · omega
    have hidx : idx < N := by omega
    have hset : (qOf N st.current_buffer).set idx .HELD = qOf N (idx : Int) := by
      rw [hc]; exact qOf_set_held N idx hidx
    simp only [along_cons, Bool.and_eq_true, heldStep, Queue.step, isDequeue, if_true]
    refine ⟨?_, hdump idx 1 ?_ (by omega)⟩
    · simp only [exactCheck, expectedHeld]
      exact exact_of_held N _ _ hq0
    · rw [hset]; exact held_qOf_some N idx hidx
  · exfalso
    rcases hcur with ⟨h, _⟩ | ⟨h0, h1, _⟩
    · exact hc h
    · unfold vectorAt at hv
      rw [if_neg (by omega), hst, List.getElem?_eq_getElem (by omega)] at hv
      simp at hv
  all_goals
    rcases hcur with ⟨h, _⟩ | ⟨h0, h1, hd1⟩
    · exact absurd h hc
    obtain ⟨c, hcc⟩ := Int.eq_ofNat_of_zero_le h0
    have hcN : c < N := by omega
    rw [hb] at hdev ⊢
    simp only [hcc] at hdev hdump hdumpq hq0 ⊢
    simp only [List.cons_append, along_cons, dequeuesQueued, Bool.and_eq_true, beq_iff_eq]
      at hdev
    have hne : idx ≠ c := by
      have := hdev.1
      simp only [qOf] at this
      split_ifs at this
      omega
    have hidx : idx < N := by omega
    have h2 := held_qOf_set_two N c idx hcN hidx hne
    simp only [List.cons_append, along_cons, along_nil, along_append, Bool.and_eq_true,
      heldStep, Queue.step, isDequeue, if_true, hdumpq, Bool.and_true]
    refine ⟨?_, hdump idx 2 h2 (by omega), ?_⟩
    · simp only [exactCheck, expectedHeld]
      exact exact_of_held N _ _ hq0
    · simp only [exactCheck, expectedHeld]
      exact exact_of_held N _ _ h2

/-- The capture loop, counted exactly: every call is issued with the expected number
of slots held, and when the loop ends through its condition `min d 1` are held, `d`
being the number of dequeues. -/
theorem captureLoop_exact (w : World) (buffers : List buffer) (N : Nat) (hN : N ≤ 2 ^ 31)
    (hlen : buffers.length = N) (fuel fc : Nat) (st : stream) (d : Nat)
    (hst : st.buffers = buffers) (hcur : CurAfter N st.current_buffer d)
    (hdev : along Queue.step dequeuesQueued (qOf N st.current_buffer)
      (captureLoop w buffers fuel fc st).1 = true) :
    along heldStep (exactCheck N) (qOf N st.current_buffer, d)
        (captureLoop w buffers fuel fc st).1 = true
    ∧ ∀ fc' st', (captureLoop w buffers fuel fc st).2 = .condition fc' st' →
        held N (replay Queue.step (qOf N st.current_buffer) (captureLoop w buffers fuel fc st).1)
          = min (d + (dequeued (captureLoop w buffers fuel fc st).1).length) 1 := by
  induction fuel generalizing fc st d with
  | zero => simp [captureLoop_zero]
  | succ fuel ih =>
    have hq0 : held N (qOf N st.current_buffer) = min d 1 := by
      rcases hcur with ⟨h1, h2⟩ | ⟨h0, h1, h2⟩
      · rw [h1, h2]; exact held_qOf_none N
      · obtain ⟨c, hcc⟩ := Int.eq_ofNat_of_zero_le h0
        rw [hcc, held_qOf_some N c (by omega)]
        omega
    have hpoll : ∀ r, exactCheck N (qOf N st.current_buffer, d) (.poll r) = true := by
      intro r
      simp only [exactCheck, expectedHeld]
      exact exact_of_held N _ _ hq0
    have hstep : ∀ r, heldStep (qOf N st.current_buffer, d) (.poll r)
        = (qOf N st.current_buffer, d) := by
      intro r; simp [heldStep, Queue.step, isDequeue]
    have hdqp : ∀ (r : Int) (l : List Event), dequeued (.poll r :: l) = dequeued l := by
      intro r l; simp [dequeued, List.filterMap_cons]
    rcases captureLoop_cases w buffers fuel fc st with
      ⟨_, h⟩ | ⟨_, _, h⟩ | ⟨_, _, ev, st', hb, h⟩ | ⟨_, _, ev, code, hb, h⟩ | ⟨_, _, ev, hb, h⟩
    · rw [h]
      refine ⟨rfl, ?_⟩
      intro fc' st'' _
      simpa [dequeued] using hq0
    · rw [h]
      refine ⟨by simp [hpoll], ?_⟩
      intro fc' st'' _
      simpa [dequeued, Queue.step] using hq0
    · rw [h] at hdev ⊢
      simp only [List.cons_append, along_cons, along_append, Bool.and_eq_true, Queue.step]
        at hdev
      have hbody := loopBody_exact w buffers (fc + 1) st N d hN hlen hst hcur
        (by rw [hb]; exact hdev.2.1)
      rw [hb] at hbody
      obtain ⟨hb1, hb2⟩ := hbody
      obtain ⟨hst', hcur', hrep, hlen1⟩ := hb2 st' rfl
      simp only [] at hb1 hrep hlen1
      rw [hrep] at hdev
      have hrec := ih (fc + 1) st' (d + 1) hst' hcur' hdev.2.2
      have hrh : replay heldStep (qOf N st.current_buffer, d) ev
          = (qOf N st'.current_buffer, d + 1) := by
        rw [replay_heldStep, hrep, hlen1]
      refine ⟨?_, ?_⟩
      · simp only [List.cons_append, along_cons, along_append, Bool.and_eq_true, hpoll, hstep,
          hb1, hrh, true_and]
        exact hrec.1
      · intro fc' st'' hex
        simp only [List.cons_append, replay_cons, replay_append, Queue.step, hrep, hdqp,
          dequeued_append, List.length_append, hlen1]
        rw [hrec.2 fc' st'' hex]
        congr 1
        omega
    · rw [h] at hdev ⊢
      simp only [along_cons, Bool.and_eq_true, Queue.step] at hdev
      have hbody := loopBody_exact w buffers (fc + 1) st N d hN hlen hst hcur
        (by rw [hb]; exact hdev.2)
      rw [hb] at hbody
      refine ⟨?_, ?_⟩
      · simp only [along_cons, Bool.and_eq_true, hpoll, hstep, true_and]
        exact hbody.1
      · intro fc' st'' hex; cases hex
    · rw [h] at hdev ⊢
      simp only [along_cons, Bool.and_eq_true, Queue.step] at hdev
      have hbody := loopBody_exact w buffers (fc + 1) st N d hN hlen hst hcur
        (by rw [hb]; exact hdev.2)
      rw [hb] at hbody
      refine ⟨?_, ?_⟩
      · simp only [along_cons, Bool.and_eq_true, hpoll, hstep, true_and]
        exact hbody.1
      · intro fc' st'' hex; cases hex

/-- The exact count over the capture of a run of `main`. -/
theorem capture_exact (w : World) (N : Nat) (hN : w.reqbufs = some N) (hb : N ≤ 2 ^ 31)
    (hdev : along Queue.step dequeuesQueued Queue.fresh (main w).trace = true) :
    along heldStep (exactCheck N) (replay Queue.step Queue.fresh (main w).setup, 0)
        (main w).capture = true
    ∧ ∀ fc st, (main w).loopExit = some (.condition fc st) →
        held N (replay Queue.step (replay Queue.step Queue.fresh (main w).setup)
            (main w).capture)
          = min (dequeued (main w).capture).length 1 := by
  rcases main_run w with ⟨hc, _, hl, _⟩ | ⟨N', bpl, hreach, _, _, hrun⟩
  · rw [hc, hl]
    exact ⟨rfl, by intro fc st h; cases h⟩
  · have hNN : N' = N := by
      have := hreach.2.2.2.2.2.2.2
      rw [hN] at this
      exact (Option.some.inj this).symm
    subst hNN
    rw [hrun] at hdev ⊢
    simp only [Run.trace, along_append, Bool.and_eq_true, replay_setup] at hdev ⊢
    have h := captureLoop_exact w (pool w bpl N') N' hb (pool_length w bpl N') 6 0
      (streamInit w (pool w bpl N')) 0 rfl (Or.inl ⟨rfl, rfl⟩) hdev.1.2
    refine ⟨h.1, ?_⟩
    intro fc st hex
    have := h.2 fc st (Option.some.inj hex)
    simpa using this

/-! ## The claims -/

/-- C7 (no double submission).  In every run whose device dequeues only slots that are
`QUEUED`, every `VIDIOC_QBUF` the program issues, the initial ones of step 5 and the
resubmissions of the capture loop, is issued for a slot that is not `QUEUED` at that
moment (`req.count` being at most `2 ^ 31`, so that an index fits the `int`
`current_buffer`). -/
theorem no_double_submission (w : World) (hb : ∀ n, w.reqbufs = some n → n ≤ 2 ^ 31)
    (hdev : along Queue.step dequeuesQueued Queue.fresh (main w).trace = true) :
    along Queue.step submitsFresh Queue.fresh (main w).trace = true := by
  rcases main_run w with ⟨hc, ht, _, _, _, hf⟩ | ⟨N, bpl, hreach, _, ha, hrun⟩
  · simp only [Run.trace, hc, ht, List.append_nil]
    exact hf
  · have hN := hreach.2.2.2.2.2.2.2
    have hg := (capture_ghost w hb hdev N hN).1
    have hfresh := allocLoop_fresh w bpl N 0 []
    rw [qAlloc_zero, ha] at hfresh
    have hmono := along_mono Queue.step (loopCheck N) submitsFresh
      (fun s e h => by simp only [loopCheck, Bool.and_eq_true] at h; exact h.2) _ _ hg
    have hsetup : along Queue.step submitsFresh Queue.fresh (main w).setup = true := by
      rw [hrun]
      simp only [List.cons_append, along_cons, along_append, Queue.step, Bool.and_eq_true]
      exact ⟨rfl, rfl, hfresh, by simp [submitsFresh]⟩
    simp only [Run.trace, along_append, Bool.and_eq_true]
    refine ⟨⟨hsetup, hmono⟩, ?_⟩
    apply along_of_forall
    intro e he s
    have : isTeardownCall e = true := by
      rw [hrun] at he
      exact mem_teardownOf _ _ _ e he
    cases e <;> simp [isTeardownCall] at this <;> rfl

theorem no_double_submission_witness :
    (∀ n, goodWorld.reqbufs = some n → n ≤ 2 ^ 31)
    ∧ along Queue.step dequeuesQueued Queue.fresh (main goodWorld).trace = true
    ∧ along Queue.step submitsFresh Queue.fresh (main goodWorld).trace = true :=
  have hb : ∀ n, goodWorld.reqbufs = some n → n ≤ 2 ^ 31 := by
    intro n h
    have h4 : n = 4 := (Option.some.inj h).symm
    omega
  ⟨hb, by decide, no_double_submission goodWorld hb (by decide)⟩

/-- C1, as stated, fails in the run of `goodWorld`: the device dequeues only queued
slots, and after the second `VIDIOC_DQBUF` (the first six calls of the loop), before
the `VIDIOC_QBUF` that resubmits `current_buffer`, two of the four slots are held and
two are queued; so it is not the case that at every instant of the capture at most
one is held and exactly three are `QUEUED` or `FREE`. -/
theorem one_held_cap_fails :
    along Queue.step dequeuesQueued Queue.fresh (main goodWorld).trace = true
    ∧ held 4 (replay Queue.step (replay Queue.step Queue.fresh (main goodWorld).setup)
        ((main goodWorld).capture.take 6)) = 2
    ∧ available 4 (replay Queue.step (replay Queue.step Queue.fresh (main goodWorld).setup)
        ((main goodWorld).capture.take 6)) = 2
    ∧ ¬ ∀ s ∈ statesAlong Queue.step (replay Queue.step Queue.fresh (main goodWorld).setup)
          (main goodWorld).capture, held 4 s ≤ 1 ∧ available 4 s = 4 - 1 := by
  decide

/-- C1, amended.  In every run whose device dequeues only queued slots, with
`req.count = N` at most `2 ^ 31`: at every instant of the capture loop at most 2 of
the `N` slots are held by the application and the others are `QUEUED` or `FREE`; each
time the program enters the readiness wait (`poll`) at most 1 is held.  Exactly, `d`
being the number of dequeues so far: a wait or a dequeue is issued with `min d 1`
slots held (none in iteration 1, exactly 1 and exactly `N - 1` `QUEUED` or `FREE` in
every later iteration); the calls after the dequeue of an iteration (map, write) with
`min d 2` held (1 in iteration 1, exactly 2 in every later iteration); the
`VIDIOC_QBUF` that resubmits `current_buffer` with exactly 2 held and exactly `N - 2`
`QUEUED` or `FREE`; and when the loop ends through its condition `min d 1` are
held. -/
theorem double_buffering_cap (w : World) (N : Nat) (hN : w.reqbufs = some N)
    (hb : N ≤ 2 ^ 31)
    (hdev : along Queue.step dequeuesQueued Queue.fresh (main w).trace = true) :
    (∀ s ∈ statesAlong Queue.step (replay Queue.step Queue.fresh (main w).setup)
        (main w).capture,
      held N s ≤ 2 ∧ held N s + available N s = N ∧ N - 2 ≤ available N s)
    ∧ (∀ s ∈ statesBefore Queue.step isPoll (replay Queue.step Queue.fresh (main w).setup)
        (main w).capture,
      held N s ≤ 1 ∧ held N s + available N s = N ∧ N - 1 ≤ available N s)
    ∧ along heldStep (exactCheck N) (replay Queue.step Queue.fresh (main w).setup, 0)
        (main w).capture = true
    ∧ (∀ pre post r, (main w).capture = pre ++ .poll r :: post →
        held N (replay Queue.step (replay Queue.step Queue.fresh (main w).setup) pre)
          = min (dequeued pre).length 1
        ∧ available N (replay Queue.step (replay Queue.step Queue.fresh (main w).setup) pre)
          = N - min (dequeued pre).length 1)
    ∧ (∀ pre post i fd ok, (main w).capture = pre ++ .qbuf i fd ok :: post →
        held N (replay Queue.step (replay Queue.step Queue.fresh (main w).setup) pre) = 2
        ∧ available N (replay Queue.step (replay Queue.step Queue.fresh (main w).setup) pre)
          = N - 2)
    ∧ (∀ fc st, (main w).loopExit = some (.condition fc st) →
        held N (replay Queue.step (replay Queue.step Queue.fresh (main w).setup)
            (main w).capture)
          = min (dequeued (main w).capture).length 1)
    ∧ (∀ pre post e h, (main w).capture = pre ++ e :: post →
        expectedHeld (dequeued pre).length e = some h →
        held N (replay Queue.step (replay Queue.step Queue.fresh (main w).setup) pre) = h
        ∧ available N (replay Queue.step (replay Queue.step Queue.fresh (main w).setup) pre)
          = N - h) := by
  have hex := capture_exact w N hN hb hdev
  have hsplit : ∀ pre post e, (main w).capture = pre ++ e :: post →
      exactCheck N (replay Queue.step (replay Queue.step Queue.fresh (main w).setup) pre,
        (dequeued pre).length) e = true := by
    intro pre post e hcap
    have h := hex.1
    rw [hcap] at h
    have h2 := along_split heldStep (exactCheck N) _ pre post e h
    rw [replay_heldStep] at h2
    simpa using h2
  have hb' : ∀ n, w.reqbufs = some n → n ≤ 2 ^ 31 := by
    intro n hn
    rw [hN] at hn
    have := Option.some.inj hn
    omega
  obtain ⟨hg, hlast⟩ := capture_ghost w hb' hdev N hN
  refine ⟨?_, ?_, hex.1, ?_, ?_, hex.2, ?_⟩
  rotate_left 2
  · intro pre post r hcap
    have h := hsplit pre post (.poll r) hcap
    simpa [exactCheck, expectedHeld] using h
  · intro pre post i fd ok hcap
    have h := hsplit pre post (.qbuf i fd ok) hcap
    simpa [exactCheck, expectedHeld] using h
  · intro pre post e h hcap hexp
    have h' := hsplit pre post e hcap
    simpa [exactCheck, hexp] using h'
  · apply statesAlong_of_along Queue.step (loopCheck N)
      (fun s => held N s ≤ 2 ∧ held N s + available N s = N ∧ N - 2 ≤ available N s) _ _ _ hg
    · have := held_add_available N
        (replay Queue.step (replay Queue.step Queue.fresh (main w).setup) (main w).capture)
      exact ⟨hlast, this, by omega⟩
    · intro s e h
      simp only [loopCheck, Bool.and_eq_true, decide_eq_true_eq] at h
      have := held_add_available N s
      exact ⟨h.1.1, this, by omega⟩
  · apply statesBefore_of_along Queue.step (loopCheck N) isPoll
      (fun s => held N s ≤ 1 ∧ held N s + available N s = N ∧ N - 1 ≤ available N s) _ _ _ hg
    intro s e h hp
    simp only [loopCheck, Bool.and_eq_true, decide_eq_true_eq, hp, Bool.not_true,
      Bool.false_or] at h
    have := held_add_available N s
    exact ⟨h.1.2, this, by omega⟩

theorem double_buffering_cap_witness :
    goodWorld.reqbufs = some 4 ∧ 4 ≤ 2 ^ 31
    ∧ along Queue.step dequeuesQueued Queue.fresh (main goodWorld).trace = true
    ∧ (∀ s ∈ statesAlong Queue.step (replay Queue.step Queue.fresh (main goodWorld).setup)
        (main goodWorld).capture,
      held 4 s ≤ 2 ∧ held 4 s + available 4 s = 4 ∧ 4 - 2 ≤ available 4 s)
    ∧ (∀ s ∈ statesBefore Queue.step isPoll
        (replay Queue.step Queue.fresh (main goodWorld).setup) (main goodWorld).capture,
      held 4 s ≤ 1 ∧ held 4 s + available 4 s = 4 ∧ 4 - 1 ≤ available 4 s)
    ∧ (main goodWorld).capture
        = (main goodWorld).capture.take 8 ++ .qbuf 0 10 true :: (main goodWorld).capture.drop 9
    ∧ (held 4 (replay Queue.step (replay Queue.step Queue.fresh (main goodWorld).setup)
          ((main goodWorld).capture.take 8)) = 2
        ∧ available 4 (replay Queue.step
          (replay Queue.step Queue.fresh (main goodWorld).setup)
          ((main goodWorld).capture.take 8)) = 4 - 2) :=
  have h := double_buffering_cap goodWorld 4 rfl (by decide) (by decide)
  ⟨rfl, by decide, by decide, h.1, h.2.1, by decide,
    h.2.2.2.2.1 ((main goodWorld).capture.take 8) ((main goodWorld).capture.drop 9) 0 10 true
      (by decide)⟩

/-- The model of the capture loop never runs out of fuel: `main` always ends by a
`return` or by a subscript out of range. -/
theorem main_never_out_of_fuel (w : World) : (main w).status ≠ .fuel := by
  rcases main_run w with ⟨_, _, _, ⟨c, hc⟩, _⟩ | ⟨N, bpl, _, _, _, hrun⟩
  · rw [hc]; simp
  · rw [hrun]
    simp only []
    have := captureLoop_fuel w (pool w bpl N) 6 0 (streamInit w (pool w bpl N)) (by omega)
      (by omega)
    cases hx : (captureLoop w (pool w bpl N) 6 0 (streamInit w (pool w bpl N))).2 with
    | condition fc st => simp only [statusOf]; split_ifs <;> simp
    | returned c => simp [statusOf]
    | undefined => simp [statusOf]
    | fuel => exact absurd hx this

/-- C6 (identity consistency).  Every `VIDIOC_QBUF` of the capture loop, for a slot
`i` with descriptor `fd`, has `i` below `req.count`, passes the descriptor exported
from buffer object `i`, and that is the descriptor of the accepted initial submission
of index `i` in step 5, the only submission of `i` there. -/
theorem identity_consistency (w : World) (i : Nat) (fd : Int) (ok : Bool)
    (h : Event.qbuf i fd ok ∈ (main w).capture) :
    (∃ N, w.reqbufs = some N ∧ i < N)
    ∧ fd = w.gbm_bo_get_fd i
    ∧ Event.gbm_bo_create i true ∈ (main w).setup
    ∧ Event.qbuf i fd true ∈ (main w).setup
    ∧ ∀ fd' ok', Event.qbuf i fd' ok' ∈ (main w).setup → fd' = fd := by
  rcases main_run w with ⟨hc, _⟩ | ⟨N, bpl, hreach, _, _, hrun⟩
  · rw [hc] at h; simp at h
  · rw [hrun] at h ⊢
    simp only [] at h ⊢
    obtain ⟨hi, hfd⟩ := (mem_captureLoop w bpl N 6 0 (streamInit w (pool w bpl N)) rfl _ h).2
      i fd ok rfl
    subst hfd
    refine ⟨⟨N, hreach.2.2.2.2.2.2.2, hi⟩, rfl, ?_, ?_, ?_⟩
    · simp only [List.cons_append, List.mem_cons, List.mem_append, List.mem_singleton]
      right; right; left
      have : ∀ n k, k ≤ i → i < k + n → Event.gbm_bo_create i true ∈ allocOk w n k := by
        intro n
        induction n with
        | zero => intro k h1 h2; omega
        | succ n ih =>
          intro k h1 h2
          simp only [allocOk, List.cons_append, List.nil_append, List.mem_cons]
          by_cases hki : k = i
          · subst hki; simp
          · right; right; right
            exact ih (k + 1) (by omega) (by omega)
      exact this N 0 (by omega) (by omega)
    · simp only [List.cons_append, List.mem_cons, List.mem_append, List.mem_singleton]
      right; right; left
      exact qbuf_mem_allocOk w N 0 i (by omega) (by omega)
    · intro fd' ok' hmem
      simp only [List.cons_append, List.mem_cons, List.mem_append, List.mem_singleton,
        List.mem_nil_iff, or_false] at hmem
      rcases hmem with hmem | hmem | hmem | hmem
      · cases hmem
      · cases hmem
      · obtain ⟨j, _, _, hj⟩ := mem_allocOk w N 0 _ hmem
        rcases hj with hj | hj | hj
        · cases hj
        · cases hj
        · simp only [Event.qbuf.injEq] at hj
          rw [hj.2.1, hj.1]
      · cases hmem

theorem identity_consistency_witness :
    Event.qbuf 0 10 true ∈ (main goodWorld).capture
    ∧ (∃ N, goodWorld.reqbufs = some N ∧ 0 < N)
    ∧ (10 : Int) = goodWorld.gbm_bo_get_fd 0
    ∧ Event.gbm_bo_create 0 true ∈ (main goodWorld).setup
    ∧ Event.qbuf 0 10 true ∈ (main goodWorld).setup
    ∧ ∀ fd' ok', Event.qbuf 0 fd' ok' ∈ (main goodWorld).setup → fd' = 10 :=
  ⟨by decide, identity_consistency goodWorld 0 10 true (by decide)⟩

/-- C5, as stated, fails in the run of `timeoutWorld`: `poll` returns 0 in iteration
3, after two frames, and the program returns `EXIT_SUCCESS`, the status of a full
capture. -/
theorem timeout_returns_success :
    Event.poll 0 ∈ (main timeoutWorld).capture
    ∧ dequeued (main timeoutWorld).capture = [0, 1]
    ∧ (main timeoutWorld).status = .exit EXIT_SUCCESS
    ∧ (main goodWorld).status = .exit EXIT_SUCCESS
    ∧ ¬ (main timeoutWorld).status = .exit EXIT_FAILURE := by
  decide

/-- C5, amended.  In every run in which a readiness wait returns 0 or an error (in
whatever iteration), the loop ends there, the program goes on to
`VIDIOC_STREAMOFF`, and the returned status is that of `VIDIOC_STREAMOFF` alone:
`EXIT_SUCCESS` when it succeeds, `EXIT_FAILURE` when it fails. -/
theorem timeout_status (w : World) (r : Int) (hr : r ≤ 0)
    (h : Event.poll r ∈ (main w).capture) :
    (main w).capture.getLast? = some (.poll r)
    ∧ Event.streamoff w.streamoff ∈ (main w).teardown
    ∧ (main w).status = .exit (if w.streamoff then EXIT_SUCCESS else EXIT_FAILURE) := by
  rcases main_run w with ⟨hc, _⟩ | ⟨N, bpl, _, _, _, hrun⟩
  · rw [hc] at h; simp at h
  · rw [hrun] at h ⊢
    simp only [] at h ⊢
    obtain ⟨⟨fc, st, hex⟩, hlast⟩ :=
      captureLoop_wait w bpl N 6 0 (streamInit w (pool w bpl N)) rfl r hr h
    rw [hex]
    refine ⟨hlast, ?_, ?_⟩
    · simp only [teardownOf]
      split_ifs
      · exact mem_stopStreaming_streamoff w fc
      · exact List.mem_append_left _ (mem_stopStreaming_streamoff w fc)
    · cases hs : w.streamoff <;> simp [statusOf, hs]

theorem timeout_status_witness :
    (0 : Int) ≤ 0 ∧ Event.poll 0 ∈ (main timeoutWorld).capture
    ∧ (main timeoutWorld).capture.getLast? = some (.poll 0)
    ∧ Event.streamoff timeoutWorld.streamoff ∈ (main timeoutWorld).teardown
    ∧ (main timeoutWorld).status
        = .exit (if timeoutWorld.streamoff then EXIT_SUCCESS else EXIT_FAILURE) :=
  ⟨by decide, by decide, timeout_status timeoutWorld 0 (by decide) (by decide)⟩

/-- C3, as stated, fails in the run of `dqbufFailsWorld`: streaming was started,
`VIDIOC_DQBUF` fails in iteration 3, and the program returns `EXIT_FAILURE` at once:
no `VIDIOC_STREAMOFF` is issued and the four buffer objects are still allocated. -/
theorem dqbuf_failure_skips_teardown :
    Event.streamon true ∈ (main dqbufFailsWorld).setup
    ∧ (main dqbufFailsWorld).capture.getLast? = some (.dqbuf none)
    ∧ (main dqbufFailsWorld).status = .exit EXIT_FAILURE
    ∧ (∀ ok, Event.streamoff ok ∉ (main dqbufFailsWorld).trace)
    ∧ (∀ i ∈ [0, 1, 2, 3], Event.gbm_bo_destroy i ∉ (main dqbufFailsWorld).trace)
    ∧ liveObjects (main dqbufFailsWorld).trace = [0, 1, 2, 3] := by
  decide

/-- C3, amended.  When the capture loop ends through its condition (a readiness wait
failed in an iteration 1 to 5, or the frame target was reached and `frame_counter`
is 6), the program issues `VIDIOC_STREAMOFF`, preceded by nothing but the
diagnostic, and, when `VIDIOC_STREAMOFF` succeeds, destroys after it every buffer
object of the pool; when `VIDIOC_STREAMOFF` fails nothing follows it.  When the loop
ends by a `return` (after a failed `VIDIOC_DQBUF` or a rejected resubmission), the
status is `EXIT_FAILURE` and no call follows: neither `VIDIOC_STREAMOFF` nor a
destruction.  In the first case the status is that of `VIDIOC_STREAMOFF`.
Conversely on the causes: a failed `VIDIOC_DQBUF` or a rejected resubmission, once
issued, is the last call of the run, which returns `EXIT_FAILURE` at once; and a run
that started streaming, in which no call of the loop is refused and no subscript is
out of range, ends the loop through its condition. -/
theorem stop_and_teardown (w : World) :
    (∀ fc st, (main w).loopExit = some (.condition fc st) →
      ((1 ≤ fc ∧ fc ≤ 5 ∧ w.poll fc ≤ 0) ∨ fc = 6)
      ∧ ∃ pre post, (main w).teardown = pre ++ Event.streamoff w.streamoff :: post
          ∧ (∀ e ∈ pre, e = .diag)
          ∧ (w.streamoff = true →
              ∀ N, w.reqbufs = some N → ∀ i, i < N → Event.gbm_bo_destroy i ∈ post)
          ∧ (w.streamoff = false → post = [])
          ∧ (main w).status = .exit (if w.streamoff then EXIT_SUCCESS else EXIT_FAILURE))
    ∧ (∀ code, (main w).loopExit = some (.returned code) →
        code = EXIT_FAILURE
        ∧ ((main w).capture.getLast? = some (.dqbuf none)
          ∨ ∃ i fd, (main w).capture.getLast? = some (.qbuf i fd false))
        ∧ (main w).teardown = [] ∧ (main w).status = .exit EXIT_FAILURE)
    ∧ (∀ e ∈ (main w).capture, isFailedCall e = true →
        (main w).capture.getLast? = some e
        ∧ (main w).loopExit = some (.returned EXIT_FAILURE)
        ∧ (main w).teardown = [] ∧ (main w).status = .exit EXIT_FAILURE)
    ∧ (Event.streamon true ∈ (main w).setup →
        (∀ e ∈ (main w).capture, isFailedCall e = false) →
        (main w).status ≠ .undefined →
        ∃ fc st, (main w).loopExit = some (.condition fc st)) := by
  rcases main_run w with ⟨hcap, _, hl, _, hs, _⟩ | ⟨N, bpl, hreach, _, _, hrun⟩
  · rw [hl, hcap]
    refine ⟨by simp, by simp, by simp, ?_⟩
    intro hon
    have := hs _ hon
    simp [isSetupCall] at this
  · rw [hrun]
    simp only [Option.some.injEq]
    refine ⟨?_, ?_, ?_, ?_⟩
    rotate_left 2
    · intro e he hf
      obtain ⟨h1, h2⟩ := captureLoop_failed w _ 6 0 _ e he hf
      rw [h1]
      exact ⟨h2, rfl, rfl, rfl⟩
    · intro _ hno hdef
      cases hx : (captureLoop w (pool w bpl N) 6 0 (streamInit w (pool w bpl N))).2 with
      | condition fc st => exact ⟨fc, st, rfl⟩
      | returned code =>
        exfalso
        obtain ⟨_, h2⟩ := captureLoop_returned_cause w _ 6 0 _ code hx
        rcases h2 with h2 | ⟨i, fd, h2⟩
        · have := hno _ (List.mem_of_mem_getLast? h2)
          simp [isFailedCall] at this
        · have := hno _ (List.mem_of_mem_getLast? h2)
          simp [isFailedCall] at this
      | undefined => rw [hx] at hdef; simp [statusOf] at hdef
      | fuel =>
        exact absurd hx (captureLoop_fuel w _ 6 0 _ (by omega) (by omega))
    · intro fc st hex
      refine ⟨?_, ?_⟩
      · rcases captureLoop_condition w _ 6 0 _ st fc (by omega) hex with ⟨h1, h2, h3⟩ | h
        · left; exact ⟨by omega, h2, h3⟩
        · right; exact h
      · rw [hex]
        simp only [teardownOf, stopStreaming]
        refine ⟨if fc < 5 then [Event.diag] else [],
          if w.streamoff = false then [] else cleanup true (pool w bpl N), ?_, ?_, ?_, ?_, ?_⟩
        · split_ifs <;> simp
        · intro e he
          split_ifs at he
          · simpa using he
          · simp at he
        · intro hs N' hN' i hi
          have hNN : N' = N := by
            have := hreach.2.2.2.2.2.2.2
            rw [hN'] at this
            exact Option.some.inj this
          subst hNN
          simp only [hs, Bool.true_eq_false, if_false, cleanup_pool]
          simp only [List.cons_append, List.mem_cons, List.mem_append, List.mem_map,
            List.mem_range]
          right; left
          exact ⟨i, hi, rfl⟩
        · intro hs
          simp [hs]
        · cases hs : w.streamoff <;> simp [statusOf, hs]
    · intro code hex
      obtain ⟨h1, h2⟩ := captureLoop_returned_cause w _ 6 0 _ code hex
      rw [hex]
      exact ⟨h1, h2, rfl, by simp [statusOf, h1]⟩

theorem stop_and_teardown_witness :
    (main goodWorld).loopExit
      = some (.condition 6 { streamInit goodWorld (pool goodWorld 7680 4) with
          current_buffer := 0 })
    ∧ (((1 ≤ 6 ∧ 6 ≤ 5 ∧ goodWorld.poll 6 ≤ 0) ∨ 6 = 6)
      ∧ ∃ pre post, (main goodWorld).teardown = pre ++ Event.streamoff goodWorld.streamoff :: post
          ∧ (∀ e ∈ pre, e = .diag)
          ∧ (goodWorld.streamoff = true →
              ∀ N, goodWorld.reqbufs = some N → ∀ i, i < N → Event.gbm_bo_destroy i ∈ post)
          ∧ (goodWorld.streamoff = false → post = [])
          ∧ (main goodWorld).status
              = .exit (if goodWorld.streamoff then EXIT_SUCCESS else EXIT_FAILURE))
    ∧ (main dqbufFailsWorld).loopExit = some (.returned EXIT_FAILURE)
    ∧ (EXIT_FAILURE = EXIT_FAILURE
        ∧ ((main dqbufFailsWorld).capture.getLast? = some (.dqbuf none)
          ∨ ∃ i fd, (main dqbufFailsWorld).capture.getLast? = some (.qbuf i fd false))
        ∧ (main dqbufFailsWorld).teardown = []
        ∧ (main dqbufFailsWorld).status = .exit EXIT_FAILURE)
    ∧ Event.dqbuf none ∈ (main dqbufFailsWorld).capture
    ∧ ((main dqbufFailsWorld).capture.getLast? = some (.dqbuf none)
        ∧ (main dqbufFailsWorld).loopExit = some (.returned EXIT_FAILURE)
        ∧ (main dqbufFailsWorld).teardown = []
        ∧ (main dqbufFailsWorld).status = .exit EXIT_FAILURE)
    ∧ Event.qbuf 3 13 false ∈ (main requeueFailsWorld).capture
    ∧ ((main requeueFailsWorld).capture.getLast? = some (.qbuf 3 13 false)
        ∧ (main requeueFailsWorld).loopExit = some (.returned EXIT_FAILURE)
        ∧ (main requeueFailsWorld).teardown = []
        ∧ (main requeueFailsWorld).status = .exit EXIT_FAILURE)
    ∧ Event.streamon true ∈ (main timeoutWorld).setup
    ∧ (∀ e ∈ (main timeoutWorld).capture, isFailedCall e = false)
    ∧ (main timeoutWorld).status ≠ .undefined
    ∧ (∃ fc st, (main timeoutWorld).loopExit = some (.condition fc st)) :=
  ⟨by decide,
    (stop_and_teardown goodWorld).1 6
      { streamInit goodWorld (pool goodWorld 7680 4) with current_buffer := 0 } (by decide),
    by decide,
    (stop_and_teardown dqbufFailsWorld).2.1 EXIT_FAILURE (by decide),
    by decide,
    (stop_and_teardown dqbufFailsWorld).2.2.1 (.dqbuf none) (by decide) rfl,
    by decide,
    (stop_and_teardown requeueFailsWorld).2.2.1 (.qbuf 3 13 false) (by decide) rfl,
    by decide, by decide, by decide,
    (stop_and_teardown timeoutWorld).2.2.2 (by decide) (by decide) (by decide)⟩

/-- C9, the failing input: in the run of `fifthWaitWorld` the readiness wait fails in
iteration 5, after four frames; the loop ends with `frame_counter = 5`, the test
`frame_counter < 5` is false and the diagnostic is not printed, while it is printed
when the wait fails in iteration 3 (`timeoutWorld`). -/
theorem diagnostic_misses_fifth_wait :
    (main fifthWaitWorld).capture.getLast? = some (.poll 0)
    ∧ dequeued (main fifthWaitWorld).capture = [0, 1, 2, 3]
    ∧ (main fifthWaitWorld).frame_counter = some 5
    ∧ Event.diag ∉ (main fifthWaitWorld).teardown
    ∧ (main timeoutWorld).frame_counter = some 3
    ∧ Event.diag ∈ (main timeoutWorld).teardown := by
  decide

/-- C10, the failing input: in the run of `goodWorld`, which ends with
`EXIT_SUCCESS`, step 9 destroys the GBM device, then the four buffer objects, then
the GBM device a second time: the device is destroyed twice and every buffer object
is destroyed after the device. -/
theorem teardown_destroys_device_twice :
    (main goodWorld).status = .exit EXIT_SUCCESS
    ∧ (main goodWorld).teardown
        = [.streamoff true, .gbm_device_destroy, .gbm_bo_destroy 0, .gbm_bo_destroy 1,
            .gbm_bo_destroy 2, .gbm_bo_destroy 3, .gbm_device_destroy, .close_gbm_fd]
    ∧ (main goodWorld).trace.count .gbm_device_destroy = 2
    ∧ (main goodWorld).trace.count .gbm_create_device = 1
    ∧ (∀ i ∈ [0, 1, 2, 3], (main goodWorld).trace.count (.gbm_bo_destroy i) = 1
        ∧ (main goodWorld).trace.indexOf .gbm_device_destroy
            < (main goodWorld).trace.indexOf (.gbm_bo_destroy i)) := by
  decide

/-- C8, as stated, fails in the run of `goodWorld`: the program never issues
`gbm_bo_unmap`, and the ninth call of the loop resubmits slot 0 while the mapping
made of it in iteration 1 is outstanding; so it is not the case that every
`VIDIOC_QBUF` is issued for a buffer without an outstanding mapping. -/
theorem resubmitted_while_mapped :
    (main goodWorld).trace.any isUnmap = false
    ∧ (main goodWorld).capture.get? 8 = some (.qbuf 0 10 true)
    ∧ Event.gbm_bo_map 0 true ∈ (main goodWorld).capture.take 8
    ∧ replay mapStep (fun _ => false) ((main goodWorld).capture.take 8) 0 = true
    ∧ ¬ along mapStep submitsUnmapped (fun _ => false) (main goodWorld).trace = true := by
  decide

/-- C8, amended.  In every run, whenever the mapping of the dequeued buffer succeeds
and the file of that iteration opens, the next call is the `fwrite` of that buffer;
when the file does not open no `fwrite` follows; and an `fwrite` occurs nowhere else:
it directly follows a successful mapping of the same buffer.  The mapping is never
released: the program issues no `gbm_bo_unmap`, so once a buffer is mapped its
mapping is outstanding at every later instant, also when its index is resubmitted in
the following iteration. -/
theorem map_never_released (w : World) :
    along lastStep readsMapped none (main w).capture = true
    ∧ (∀ e ∈ (main w).trace, isUnmap e = false)
    ∧ (∀ n i, Event.gbm_bo_map i true ∈ (main w).trace.take n →
        replay mapStep (fun _ => false) ((main w).trace.take n) i = true)
    ∧ along readStep (readCheck w) (0, none) (main w).capture = true
    ∧ readSettled w (replay readStep (0, none) (main w).capture) = true
    ∧ (∀ pre post i, (main w).capture = pre ++ .gbm_bo_map i true :: post →
        w.fopen (pre.filter isPoll).length = true → post.head? = some (.fwrite i)) := by
  have hreads : along readStep (readCheck w) (0, none) (main w).capture = true
      ∧ readSettled w (replay readStep (0, none) (main w).capture) = true := by
    rcases main_run w with ⟨hc, _⟩ | ⟨N, bpl, _, _, _, hrun⟩
    · rw [hc]; exact ⟨rfl, rfl⟩
    · rw [hrun]
      exact captureLoop_reads w _ 6 0 _ none rfl
  have hno : ∀ e ∈ (main w).trace, isUnmap e = false := by
    intro e he
    rcases main_calls w e he with h | h | h | h
    · cases e <;> simp [isSetupCall] at h <;> rfl
    · subst h; rfl
    · cases e <;> simp [isCaptureCall] at h <;> rfl
    · cases e <;> simp [isTeardownCall] at h <;> rfl
  refine ⟨?_, hno, ?_, hreads.1, hreads.2, ?_⟩
  · rcases main_run w with ⟨hc, _⟩ | ⟨N, bpl, _, _, _, hrun⟩
    · rw [hc]; rfl
    · rw [hrun]
      exact captureLoop_readsMapped w _ 6 0 _ none
  · intro n i h
    exact mapped_stays _ _ i (fun e he => hno e (List.mem_of_mem_take he)) (Or.inr h)
  · intro pre post i hcap hf
    exact read_after_map w _ pre post i hreads.1 hreads.2 hcap hf

theorem map_never_released_witness :
    Event.gbm_bo_map 0 true ∈ (main goodWorld).trace.take 23
    ∧ (main goodWorld).trace.get? 23 = some (.qbuf 0 10 true)
    ∧ replay mapStep (fun _ => false) ((main goodWorld).trace.take 23) 0 = true
    ∧ (main goodWorld).capture
        = (main goodWorld).capture.take 11 ++ .gbm_bo_map 2 true
            :: (main goodWorld).capture.drop 12
    ∧ goodWorld.fopen (((main goodWorld).capture.take 11).filter isPoll).length = true
    ∧ ((main goodWorld).capture.drop 12).head? = some (.fwrite 2) :=
  ⟨by decide, by decide, (map_never_released goodWorld).2.2.1 23 0 (by decide),
    by decide, by decide,
    (map_never_released goodWorld).2.2.2.2.2 ((main goodWorld).capture.take 11)
      ((main goodWorld).capture.drop 12) 2 (by decide) (by decide)⟩

/-- C2, as stated, fails in the run of `requeueFailsWorld`: the five readiness waits
and the five dequeues happen and succeed (indices 0, 1, 2, 3, 0, each queued when
dequeued), but the resubmission of iteration 5 is rejected: only three resubmissions
are accepted, not four, the program returns `EXIT_FAILURE` from inside iteration 5,
`current_buffer` is never set to the index just dequeued, and there is no
shutdown. -/
theorem rejected_resubmission_breaks_recycling :
    (∀ k ∈ [1, 2, 3, 4, 5],
      0 < requeueFailsWorld.poll k ∧ (requeueFailsWorld.dqbuf k).isSome = true)
    ∧ ((main requeueFailsWorld).capture.filter isPoll).length = 5
    ∧ dequeued (main requeueFailsWorld).capture = [0, 1, 2, 3, 0]
    ∧ along Queue.step dequeuesQueued Queue.fresh (main requeueFailsWorld).trace = true
    ∧ submitted (main requeueFailsWorld).capture = [0, 1, 2]
    ∧ (main requeueFailsWorld).capture.getLast? = some (.qbuf 3 13 false)
    ∧ (main requeueFailsWorld).loopExit = some (.returned EXIT_FAILURE)
    ∧ (main requeueFailsWorld).current_buffer = none
    ∧ (main requeueFailsWorld).teardown = []
    ∧ ¬ ((submitted (main requeueFailsWorld).capture).length = 5 - 1
        ∧ (main requeueFailsWorld).current_buffer = some 0) := by
  decide

/-- C2, amended.  In every run that reaches the capture loop with a pool of
`N ≤ 2 ^ 31` buffers and in which the five readiness waits succeed, the five
dequeues succeed with indices `i 1 .. i 5` below `N`, and the resubmissions of
iterations 2 to 5 are accepted: the loop is exactly five iterations, each with one
dequeue; iteration 1 resubmits nothing and iteration `k ≥ 2` resubmits exactly the
index dequeued in iteration `k - 1`, with the descriptor of that slot; a pass through
the body of iteration `k` leaves `current_buffer = i k`; so there are exactly four
resubmissions, `i 1 .. i 4`, the loop ends with `frame_counter = 6` and
`current_buffer = i 5`, the buffer delivered last is not resubmitted, and the next
call is `VIDIOC_STREAMOFF`. -/
theorem delayed_recycling (w : World) (N : Nat) (hreach : w.reachesAlloc N)
    (hN : N ≤ 2 ^ 31)
    (halloc : ∀ j, j < N → w.querybuf j = true ∧ w.gbm_bo_create j = true ∧ w.qbuf j = true)
    (hon : w.streamon = true)
    (hpoll : ∀ k, 1 ≤ k → k ≤ 5 → 0 < w.poll k)
    (i : Nat → Nat) (hdq : ∀ k, 1 ≤ k → k ≤ 5 → w.dqbuf k = some (i k) ∧ i k < N)
    (hre : ∀ k, 2 ≤ k → k ≤ 5 → w.requeue k = true) :
    (main w).capture
        = iteration w 1 (i 1) none ++ iteration w 2 (i 2) (some (i 1))
          ++ iteration w 3 (i 3) (some (i 2)) ++ iteration w 4 (i 4) (some (i 3))
          ++ iteration w 5 (i 5) (some (i 4))
    ∧ dequeued (main w).capture = [i 1, i 2, i 3, i 4, i 5]
    ∧ submitted (main w).capture = [i 1, i 2, i 3, i 4]
    ∧ (main w).frame_counter = some 6
    ∧ (main w).current_buffer = some (i 5 : Int)
    ∧ (∀ k bpl st, 1 ≤ k → k ≤ 5 → st.buffers = pool w bpl N →
        (st.current_buffer = -1
          ∨ (2 ≤ k ∧ 0 ≤ st.current_buffer ∧ st.current_buffer < (N : Int))) →
        (loopBody w (pool w bpl N) k st).2 = .next { st with current_buffer := (i k : Int) })
    ∧ (main w).teardown.head? = some (.streamoff w.streamoff) := by
  rcases main_run w with ⟨_, _, hl, _⟩ | ⟨N', bpl, hreach', _, _, hrun⟩
  · exfalso
    obtain ⟨bpl, hmain⟩ := main_of_reachesAlloc w N hreach
    rcases allocAndStream_split w bpl N with ⟨ev, ha, _⟩ | ⟨_, hs, _⟩ | ⟨_, _, h'⟩
    · by_cases hz : N = 0
      · subst hz
        simp [allocLoop] at ha
      · have hfirst := allocLoop_some w bpl N 0 []
        have : ∀ n k (bs : List buffer), k + n ≤ N →
            (allocLoop w bpl n k bs).2 ≠ none := by
          intro n
          induction n with
          | zero => intro k bs _; simp [allocLoop]
          | succ n ih =>
            intro k bs hk
            obtain ⟨h1, h2, h3⟩ := halloc k (by omega)
            unfold allocLoop
            simp only [h1, h2, h3, Bool.true_eq_false, if_false]
            exact ih (k + 1) _ (by omega)
        exact this N 0 [] (by omega) (by rw [ha])
    · rw [hon] at hs; cases hs
    · rw [hmain, h'] at hl
      simp at hl
  · have hNN : N' = N := by
      have h1 := hreach'.2.2.2.2.2.2.2
      have h2 := hreach.2.2.2.2.2.2.2
      rw [h1] at h2
      exact Option.some.inj h2
    subst hNN
    have hloop := captureLoop_all_ok w bpl N' hN hpoll i hdq hre
    have hcap : (main w).capture
        = iteration w 1 (i 1) none ++ iteration w 2 (i 2) (some (i 1))
          ++ iteration w 3 (i 3) (some (i 2)) ++ iteration w 4 (i 4) (some (i 3))
          ++ iteration w 5 (i 5) (some (i 4)) := by
      rw [hrun]; simp only [hloop]
    have hexit : (main w).loopExit = some (.condition 6
        { streamInit w (pool w bpl N') with current_buffer := (i 5 : Int) }) := by
      rw [hrun]; simp only [hloop]
    have htd : (main w).teardown = teardownOf w (pool w bpl N') (.condition 6
        { streamInit w (pool w bpl N') with current_buffer := (i 5 : Int) }) := by
      rw [hrun]; simp only [hloop]
    refine ⟨hcap, ?_, ?_, ?_, ?_, ?_, ?_⟩
    · rw [hcap]
      simp only [dequeued_append, dequeued_iteration, List.singleton_append, List.cons_append,
        List.nil_append]
    · rw [hcap]
      simp only [submitted_append, submitted_iteration, Option.toList, List.nil_append,
        List.singleton_append, List.cons_append]
    · simp only [Run.frame_counter, hexit]
    · simp only [Run.current_buffer, hexit]
    · intro k bpl' st hk1 hk5 hst hcur
      obtain ⟨hd, hik⟩ := hdq k hk1 hk5
      rcases hcur with hcur | ⟨hk2, h0, h1⟩
      · rw [loopBody_first w bpl' N' k (i k) st hN hd hik hcur]
      · obtain ⟨c, hc⟩ := Int.eq_ofNat_of_zero_le h0
        rw [hc] at h1
        rw [loopBody_later w bpl' N' k (i k) c st hN hst hd hik hc (by omega) (hre k hk2 hk5)]
    · rw [htd]
      simp only [teardownOf, stopStreaming]
      cases hs : w.streamoff <;> simp

theorem delayed_recycling_witness :
    goodWorld.reachesAlloc 4
    ∧ (∀ k, 1 ≤ k → k ≤ 5 → 0 < goodWorld.poll k)
    ∧ (∀ k, 1 ≤ k → k ≤ 5 → goodWorld.dqbuf k = some ((k - 1) % 4) ∧ (k - 1) % 4 < 4)
    ∧ (∀ k, 2 ≤ k → k ≤ 5 → goodWorld.requeue k = true)
    ∧ dequeued (main goodWorld).capture = [0, 1, 2, 3, 0]
    ∧ submitted (main goodWorld).capture = [0, 1, 2, 3]
    ∧ (main goodWorld).frame_counter = some 6
    ∧ (main goodWorld).current_buffer = some 0 :=
  have hreach : goodWorld.reachesAlloc 4 :=
    ⟨rfl, by decide, rfl, rfl, rfl, by decide, rfl, rfl⟩
  have hpoll : ∀ k, 1 ≤ k → k ≤ 5 → 0 < goodWorld.poll k :=
    fun _ _ _ => show (0 : Int) < 1 by decide
  have hdq : ∀ k, 1 ≤ k → k ≤ 5 →
      goodWorld.dqbuf k = some ((k - 1) % 4) ∧ (k - 1) % 4 < 4 :=
    fun k _ _ => ⟨rfl, Nat.mod_lt _ (by decide)⟩
  have hre : ∀ k, 2 ≤ k → k ≤ 5 → goodWorld.requeue k = true := fun _ _ _ => rfl
  have h := delayed_recycling goodWorld 4 hreach (by decide) (fun _ _ => ⟨rfl, rfl, rfl⟩) rfl
    hpoll (fun k => (k - 1) % 4) hdq hre
  ⟨hreach, hpoll, hdq, hre, h.2.1, h.2.2.1, h.2.2.2.1, h.2.2.2.2.1⟩

end V4l2Capture
